import Mathlib

/-!
Verification of the collaborative document core of the refmd markdown
knowledge-base server.  Rust strings are modelled as `List Char`; byte
lengths use the UTF-8 size of each character; fallible operations return
`Option` or `Except`.  Each section embeds one subsystem of the source:
filename sanitizers, the wiki-link parser, the permission guard, the
connection tracker, the sync-gateway throttle, the update broadcast path
and the AES-256-GCM encryption service.
-/

namespace RefMd

/-! ## Filename sanitizers

Embeds `DocumentService::sanitize_filename` (src/api/src/services/document.rs)
and `PathUtils::sanitize_filename` (src/api/src/services/common/path_utils.rs).
Both trim the title, replace the invalid characters by `-`, collapse `--`
runs with a while-loop, truncate to 100 bytes and default to `untitled`;
the `PathUtils` variant additionally replaces spaces by `_` before the
truncation.  `String::truncate` panics when the cut is not a character
boundary; the embedding returns `none` for that panic.
-/

/-- Unicode White_Space property, used by Rust's `str::trim`
(`char::is_whitespace`). -/
def rustIsWhitespace (c : Char) : Bool :=
  let n := c.toNat
  decide ((9 ≤ n ∧ n ≤ 13) ∨ n = 32 ∨ n = 133 ∨ n = 160 ∨ n = 5760 ∨
    (8192 ≤ n ∧ n ≤ 8202) ∨ n = 8232 ∨ n = 8233 ∨ n = 8239 ∨ n = 8287 ∨ n = 12288)

/-- Rust `str::trim`: drop leading and trailing whitespace. -/
def rustTrim (s : List Char) : List Char :=
  ((s.dropWhile rustIsWhitespace).reverse.dropWhile rustIsWhitespace).reverse

/-- Rust `String::replace(ch, "-")` for a single-character pattern `old`
replaced by the single character `new`. -/
def replaceChar (old new : Char) (s : List Char) : List Char :=
  s.map (fun c => if c = old then new else c)

/-- The `invalid_chars` array of both sanitizers:
`['/', '\\', ':', '*', '?', '"', '<', '>', '|', '\0']`. -/
def invalidChars : List Char :=
  ['/', '\\', ':', '*', '?', '"', '<', '>', '|', '\x00']

/-- The `for &ch in &invalid_chars` loop: sequentially replace each invalid
character by `-`. -/
def replaceInvalid (s : List Char) : List Char :=
  invalidChars.foldl (fun acc o => replaceChar o '-' acc) s

/-- Rust `String::contains("--")`. -/
def containsDashPair : List Char → Bool
  | a :: b :: rest => (a == '-' && b == '-') || containsDashPair (b :: rest)
  | _ => false

/-- Rust `String::replace("--", "-")`: one left-to-right pass replacing
non-overlapping occurrences of `--` by `-`. -/
def replaceDashPairs : List Char → List Char
  | a :: b :: rest =>
    if a == '-' && b == '-' then '-' :: replaceDashPairs rest
    else a :: replaceDashPairs (b :: rest)
  | s => s

/-- The `while sanitized.contains("--")` loop, run with explicit fuel.
`collapseLoop_fuel_sufficient` below shows that `s.length` fuel reaches the
loop's fixed point, so `collapseDashes` is exactly the while-loop. -/
def collapseLoop : Nat → List Char → List Char
  | 0, s => s
  | fuel + 1, s =>
    if containsDashPair s then collapseLoop fuel (replaceDashPairs s) else s

/-- The collapse step of both sanitizers. -/
def collapseDashes (s : List Char) : List Char :=
  collapseLoop s.length s

/-- Declarative form of the collapse step (the spec's words: runs of `-`
collapsed to one); proved equal to the while-loop below. -/
def collapseRuns : List Char → List Char
  | a :: b :: rest =>
    if a == '-' && b == '-' then collapseRuns (b :: rest)
    else a :: collapseRuns (b :: rest)
  | s => s

/-- UTF-8 byte length of a string, Rust `String::len`. -/
def utf8Len : List Char → Nat
  | [] => 0
  | c :: rest => c.utf8Size + utf8Len rest

/-- Rust `String::truncate (n)` keeps the first `n` bytes.  It panics when
byte `n` is not a character boundary; the panic is modelled as `none`. -/
def truncateBytes : Nat → List Char → Option (List Char)
  | _, [] => some []
  | budget, c :: rest =>
    if budget = 0 then some []
    else if c.utf8Size ≤ budget then
      (truncateBytes (budget - c.utf8Size) rest).map (fun t => c :: t)
    else none

/-- The default name used when the sanitized title is empty. -/
def untitledName : List Char := ['u', 'n', 't', 'i', 't', 'l', 'e', 'd']

/-- `DocumentService::sanitize_filename` (services/document.rs, lines
176-202): trim, replace invalid characters by `-`, collapse `--` runs,
truncate to 100 bytes, default to `untitled`.  Note: no space replacement. -/
def sanitize_filename_doc (name : List Char) : Option (List Char) :=
  let s0 := rustTrim name
  let s1 := replaceInvalid s0
  let s2 := collapseDashes s1
  match (if 100 < utf8Len s2 then truncateBytes 100 s2 else some s2) with
  | none => none
  | some s3 => some (if s3.isEmpty then untitledName else s3)

/-- `PathUtils::sanitize_filename` (services/common/path_utils.rs, lines
13-41): same pipeline but with spaces replaced by `_` after the collapse
and before the truncation. -/
def sanitize_filename_path (name : List Char) : Option (List Char) :=
  let s0 := rustTrim name
  let s1 := replaceInvalid s0
  let s2 := collapseDashes s1
  let s3 := replaceChar ' ' '_' s2
  match (if 100 < utf8Len s3 then truncateBytes 100 s3 else some s3) with
  | none => none
  | some s4 => some (if s4.isEmpty then untitledName else s4)

/-- Sequential replacement of each character of `L` by `-`; `replaceInvalid`
is this fold at `invalidChars`. -/
def foldRepl (L : List Char) (s : List Char) : List Char :=
  L.foldl (fun acc o => replaceChar o '-' acc) s

/-- Predicate: the string neither starts nor ends with whitespace, so
Rust's `trim` leaves it unchanged. -/
def nonWsEnds (s : List Char) : Prop :=
  (∀ c, s.head? = some c → rustIsWhitespace c = false) ∧
  (∀ c, s.getLast? = some c → rustIsWhitespace c = false)

/-- Sanitizer pipeline written from the spec's words (§4.5), minus the
space-replacement step that `DocumentService::sanitize_filename` does not
perform: trim, replace each invalid character with `-`, collapse runs of
`-` to one, truncate to 100 bytes, `untitled` if empty. -/
def spec_sanitize_doc (name : List Char) : Option (List Char) :=
  let s0 := rustTrim name
  let s1 := s0.map (fun c => if c ∈ invalidChars then '-' else c)
  let s2 := collapseRuns s1
  match (if 100 < utf8Len s2 then truncateBytes 100 s2 else some s2) with
  | none => none
  | some s3 => some (if s3.isEmpty then untitledName else s3)

/-! ## Connection tracker

Embeds `ConnectionTracker` (src/api/src/socketio/connection_tracker.rs).
The two `DashMap`s are modelled as functions into `Option` (present key
with value, or absent); socket ids are `String`, document UUIDs are
abstracted as `Nat`.
-/

/-- The connection tracker state: `socket → docs` and `doc → sockets`. -/
structure ConnectionTracker where
  socket_documents : String → Option (List Nat)
  document_sockets : Nat → Option (List String)

/-- A fresh tracker, `ConnectionTracker::new`. -/
def ConnectionTracker.empty : ConnectionTracker :=
  ⟨fun _ => none, fun _ => none⟩

/-- The `entry(..).and_modify(push if absent).or_insert(vec[x])` pattern of
`join_document`, on the list level. -/
def joinList {α : Type} [BEq α] (l : List α) (x : α) : List α :=
  if l.contains x then l else l ++ [x]

/-- `ConnectionTracker::join_document`: add the document to the socket's
list and the socket to the document's list, each only when absent. -/
def ConnectionTracker.join_document (t : ConnectionTracker) (socket_id : String)
    (document_id : Nat) : ConnectionTracker where
  socket_documents := fun k =>
    if k = socket_id then
      some (joinList ((t.socket_documents socket_id).getD []) document_id)
    else t.socket_documents k
  document_sockets := fun k =>
    if k = document_id then
      some (joinList ((t.document_sockets document_id).getD []) socket_id)
    else t.document_sockets k

/-- `ConnectionTracker::leave_document`: `retain` on both lists when the
key is present. -/
def ConnectionTracker.leave_document (t : ConnectionTracker) (socket_id : String)
    (document_id : Nat) : ConnectionTracker where
  socket_documents := fun k =>
    if k = socket_id then
      (t.socket_documents socket_id).map (fun docs => docs.filter (fun id => id != document_id))
    else t.socket_documents k
  document_sockets := fun k =>
    if k = document_id then
      (t.document_sockets document_id).map (fun sockets => sockets.filter (fun id => id != socket_id))
    else t.document_sockets k

/-- `ConnectionTracker::get_socket_documents` (clone-or-default). -/
def ConnectionTracker.get_socket_documents (t : ConnectionTracker)
    (socket_id : String) : List Nat :=
  (t.socket_documents socket_id).getD []

/-- `ConnectionTracker::get_document_sockets` (clone-or-default). -/
def ConnectionTracker.get_document_sockets (t : ConnectionTracker)
    (document_id : Nat) : List String :=
  (t.document_sockets document_id).getD []

/-- `ConnectionTracker::remove_socket`: leave every document in the
socket's snapshot, then remove the socket's entry; returns the snapshot. -/
def ConnectionTracker.remove_socket (t : ConnectionTracker) (socket_id : String) :
    ConnectionTracker × List Nat :=
  let documents := t.get_socket_documents socket_id
  let t1 := documents.foldl (fun acc d => acc.leave_document socket_id d) t
  (⟨fun k => if k = socket_id then none else t1.socket_documents k,
    t1.document_sockets⟩, documents)

/-- `ConnectionTracker::is_document_empty`. -/
def ConnectionTracker.is_document_empty (t : ConnectionTracker)
    (document_id : Nat) : Bool :=
  match t.document_sockets document_id with
  | some sockets => sockets.isEmpty
  | none => true

/-- `ConnectionTracker::is_socket_in_document`. -/
def ConnectionTracker.is_socket_in_document (t : ConnectionTracker)
    (socket_id : String) (document_id : Nat) : Bool :=
  match t.socket_documents socket_id with
  | some docs => docs.contains document_id
  | none => false

/-- One tracker-affecting gateway event. -/
inductive TrackerOp
  | join (socket_id : String) (document_id : Nat)
  | leave (socket_id : String) (document_id : Nat)
  | disconnect (socket_id : String)

/-- Apply one event to the tracker, as the gateway handlers do. -/
def applyTrackerOp (t : ConnectionTracker) : TrackerOp → ConnectionTracker
  | .join s d => t.join_document s d
  | .leave s d => t.leave_document s d
  | .disconnect s => (t.remove_socket s).1

/-- Run a sequence of events from the empty tracker. -/
def applyTrackerOps (ops : List TrackerOp) : ConnectionTracker :=
  ops.foldl applyTrackerOp ConnectionTracker.empty

/-- The tracker invariant: the two maps are mutual inverses and the lists
are duplicate-free. -/
def TrackerInv (t : ConnectionTracker) : Prop :=
  (∀ s d, d ∈ (t.socket_documents s).getD [] ↔ s ∈ (t.document_sockets d).getD []) ∧
  (∀ s, ((t.socket_documents s).getD []).Nodup) ∧
  (∀ d, ((t.document_sockets d).getD []).Nodup)

/-- Events the `join_document` socket handler can emit, in the order the
handler emits them. -/
inductive SEvent
  | errorEvt (msg : String)
  | joinedDocument (document_id : Nat)
  | userCountUpdateRoom (document_id : Nat) (count : Nat)
  | userCountUpdateSelf (document_id : Nat) (count : Nat)
  | userJoined (document_id : Nat)
deriving DecidableEq

/-- Outcome of the Permission Guard, `PermissionCheck` in
src/api/src/middleware/permission.rs. -/
structure PermissionCheck where
  has_access : Bool
  is_share_link : Bool
deriving DecidableEq

/-- The `join_document` socket handler (src/api/src/socketio/handlers.rs,
lines 141-204), given the Permission Guard's result: on error or deny emit
`error`; when the socket is already tracked for the document do nothing;
otherwise join the room, track the pair and emit `joined-document`, the
two `user_count_update`s and `user_joined`.  Awareness and persistence
side effects are outside the modelled state. -/
def join_document_handler (t : ConnectionTracker) (socket_id : String)
    (document_id : Nat) (perm : Except String PermissionCheck) :
    ConnectionTracker × List SEvent :=
  match perm with
  | .error e => (t, [.errorEvt ("Permission denied: " ++ e)])
  | .ok check =>
    if !check.has_access then (t, [.errorEvt "Access denied to resource"])
    else if t.is_socket_in_document socket_id document_id then (t, [])
    else
      let t1 := t.join_document socket_id document_id
      let user_count := (t1.get_document_sockets document_id).length
      (t1, [.joinedDocument document_id,
            .userCountUpdateRoom document_id user_count,
            .userCountUpdateSelf document_id user_count,
            .userJoined document_id])

/-! ## Sync gateway: save throttle and update path

Embeds `YjsSyncManager::apply_and_broadcast_update`
(src/api/src/socketio/crdt_sync.rs, lines 213-289).  Time is in whole
seconds; `Instant` entries are the per-document `last_save_times` values;
the per-document `AtomicU32` counter wraps at `2^32`.
-/

/-- Per-document throttle state: the `update_counters` entry and the
`last_save_times` entry (absent before the first update). -/
structure SaveState where
  counter : Nat
  lastSave : Option Nat
deriving DecidableEq

/-- The `should_save` block: `fetch_add(1)` yields the previous counter;
the last-save entry is created at `now` when absent (`or_insert`);
trigger on elapsed ≥ 10 s, previous count ≥ 3, or update length > 100
bytes; on trigger the timer is always reset but the counter is reset
only when the count condition fired. -/
def updateThrottle (st : SaveState) (now : Nat) (updateLen : Nat) :
    Bool × SaveState :=
  let count := st.counter
  let counter1 := (st.counter + 1) % 4294967296
  let last := st.lastSave.getD now
  let time_elapsed := now - last
  let should_save_by_time := decide (10 ≤ time_elapsed)
  let should_save_by_count := decide (3 ≤ count)
  let should_save_by_size := decide (100 < updateLen)
  if should_save_by_time || should_save_by_count || should_save_by_size then
    (true, ⟨if should_save_by_count then 0 else counter1, some now⟩)
  else
    (false, ⟨counter1, some last⟩)

/-- Run the throttle over a list of `(now, update length)` events,
collecting the trigger decisions. -/
def runThrottle (st : SaveState) : List (Nat × Nat) → SaveState × List Bool
  | [] => (st, [])
  | (now, len) :: rest =>
    let r := updateThrottle st now len
    let rr := runThrottle r.2 rest
    (rr.1, r.1 :: rr.2)

/-- Effects of the update path, in emission order: the room broadcast
(`yjs:sync` to `doc:<id>` excluding the sender), the `sync-error` emitted
to the originating socket only, and the spawned snapshot+materialize
task. -/
inductive UpdateEvent
  | broadcastUpdate (document_id : Nat) (update : List Nat)
  | syncError (document_id : Nat) (error msg : String)
  | spawnSaveToFile (document_id : Nat)
deriving DecidableEq

/-- `YjsSyncManager::apply_and_broadcast_update`: apply the update to the
replica (modelled as the list of applied updates), broadcast it to the
room, try to persist it — on failure emit `sync-error` to the sender and
continue — then run the throttle and spawn the save when it fires.  The
apply and persist results stand for `doc.apply_update` and
`save_update_auto`. -/
def apply_and_broadcast_update (docState : List (List Nat)) (st : SaveState)
    (document_id : Nat) (update : List Nat) (now : Nat)
    (applyResult : Except String Unit) (persistResult : Except String Unit) :
    Except String (List (List Nat) × SaveState × List UpdateEvent) :=
  match applyResult with
  | .error e => .error e
  | .ok _ =>
    let doc1 := docState ++ [update]
    let ev1 := [UpdateEvent.broadcastUpdate document_id update]
    let ev2 := match persistResult with
      | .error e =>
        [UpdateEvent.syncError document_id "Failed to persist document changes"
          ("Update could not be saved: " ++ e)]
      | .ok _ => []
    let r := updateThrottle st now update.length
    let ev3 := if r.1 then [UpdateEvent.spawnSaveToFile document_id] else []
    .ok (doc1, r.2, ev1 ++ ev2 ++ ev3)

/-! ## Permission guard

Embeds `check_resource_permission` (src/api/src/middleware/permission.rs,
lines 22-84), `Permission` (entities/share.rs) and the share-token checks
(`ShareService::verify_share_token`, `get_permission_for_share`,
services/share.rs).  The database is modelled as pure lookups.
-/

/-- Permission levels, `entities/share.rs`. -/
inductive Permission
  | view
  | comment
  | edit
  | admin
  | owner
deriving DecidableEq

/-- `Permission::level`. -/
def Permission.level : Permission → Nat
  | .view => 1
  | .comment => 2
  | .edit => 3
  | .admin => 4
  | .owner => 5

/-- `Permission::has_permission`: `self.level() >= required.level()`. -/
def Permission.has_permission (p required : Permission) : Bool :=
  decide (required.level ≤ p.level)

/-- The fields of the document row the guard reads. -/
structure DocumentRow where
  owner_id : Nat
  doc_type : String
deriving DecidableEq

/-- The fields of a share link the guard reads. -/
structure ShareLinkRow where
  document_id : Nat
  permission : Permission
  expires_at : Option Nat
deriving DecidableEq

/-- The stores the guard consults: document rows by id, explicit grants by
(document, user), share links by token, and the current time. -/
structure PermEnv where
  docs : Nat → Option DocumentRow
  grants : Nat → Nat → Option Permission
  shares : String → Option ShareLinkRow
  now : Nat

/-- `ShareService::verify_share_token`: the token's link targets the
resource and is unexpired (`expires_at` absent or in the future). -/
def verify_share_token (env : PermEnv) (token : String) (document_id : Nat) : Bool :=
  match env.shares token with
  | some link =>
    decide (link.document_id = document_id) &&
      (link.expires_at.map (fun exp => decide (env.now < exp))).getD true
  | none => false

/-- `ShareService::get_permission_for_share`. -/
def get_permission_for_share (env : PermEnv) (document_id : Nat) (token : String) :
    Option Permission :=
  match env.shares token with
  | some link =>
    if link.document_id ≠ document_id then none
    else
      match link.expires_at with
      | some exp => if exp < env.now then none else some link.permission
      | none => some link.permission
  | none => none

/-- The owner / explicit-grant phase of `check_resource_permission`: `some`
is an early return; `none` falls through to the share-token phase.  The
grant is consulted only when `expected_type` is `None` or
`Some("document")`, and when one exists the function returns immediately
with `has_permission`, sufficient or not. -/
def ownerOrGrant (env : PermEnv) (resource_id : Nat) (user_id : Option Nat)
    (required_permission : Permission) (expected_type : Option String)
    (doc : DocumentRow) : Option PermissionCheck :=
  match user_id with
  | some uid =>
    if doc.owner_id = uid then some ⟨true, false⟩
    else if expected_type = none ∨ expected_type = some "document" then
      match env.grants resource_id uid with
      | some perm => some ⟨perm.has_permission required_permission, false⟩
      | none => none
    else none
  | none => none

/-- The share-token phase of `check_resource_permission`. -/
def shareTokenCheck (env : PermEnv) (resource_id : Nat)
    (share_token : Option String) (required_permission : Permission) :
    Option PermissionCheck :=
  match share_token with
  | some token =>
    if verify_share_token env token resource_id then
      match get_permission_for_share env resource_id token with
      | some perm => some ⟨perm.has_permission required_permission, true⟩
      | none => none
    else none
  | none => none

/-- `check_resource_permission`: load the row (NotFound if absent or kind
mismatch), then owner/grant phase, then share-token phase, then deny. -/
def check_resource_permission (env : PermEnv) (resource_id : Nat)
    (user_id : Option Nat) (share_token : Option String)
    (required_permission : Permission) (expected_type : Option String) :
    Except String PermissionCheck :=
  match env.docs resource_id with
  | none => .error ((expected_type.getD "Resource") ++ " not found")
  | some doc =>
    match expected_type with
    | some expected =>
      if doc.doc_type = expected then
        .ok (((ownerOrGrant env resource_id user_id required_permission
          expected_type doc).orElse
          (fun _ => shareTokenCheck env resource_id share_token
            required_permission)).getD ⟨false, false⟩)
      else .error ("Document is not a " ++ expected)
    | none =>
      .ok (((ownerOrGrant env resource_id user_id required_permission
        expected_type doc).orElse
        (fun _ => shareTokenCheck env resource_id share_token
          required_permission)).getD ⟨false, false⟩)

/-- A concrete guard environment: document `1` owned by user `10`, an
explicit `view` grant to user `20`, and an unexpired `edit` share link
with token `"k"` targeting document `1`. -/
def permEnvC2 : PermEnv where
  docs := fun i => if i = 1 then some ⟨10, "document"⟩ else none
  grants := fun i u => if i = 1 ∧ u = 20 then some Permission.view else none
  shares := fun tok => if tok = "k" then some ⟨1, Permission.edit, none⟩ else none
  now := 0

/-! ## Link parser

Embeds `LinkParser::parse_links` (src/api/src/services/link_parser.rs,
lines 39-150).  The three regexes are modelled by a deterministic
position-by-position scanner: at a given position each pattern matches
exactly when its regex does (the character classes exclude the
delimiters, so the greedy runs never backtrack), and the scan resumes
after a match, giving the regex crate's leftmost non-overlapping
semantics.  Positions are character indices, equal to the source's byte
offsets on ASCII content.
-/

/-- A parsed link target, `LinkTarget`: a UUID (abstracted to its 128-bit
value) or a case-preserved title. -/
inductive LinkTarget
  | id (value : Nat)
  | title (t : List Char)
deriving DecidableEq

/-- `LinkType`. -/
inductive LinkType
  | reference
  | embed
  | mention
deriving DecidableEq

/-- `DocumentLink`. -/
structure DocumentLink where
  target : LinkTarget
  link_type : LinkType
  link_text : Option (List Char)
  position_start : Nat
  position_end : Nat
deriving DecidableEq

/-- Hexadecimal digit value, case-insensitive. -/
def hexVal? (c : Char) : Option Nat :=
  if '0' ≤ c ∧ c ≤ '9' then some (c.toNat - 48)
  else if 'a' ≤ c ∧ c ≤ 'f' then some (c.toNat - 87)
  else if 'A' ≤ c ∧ c ≤ 'F' then some (c.toNat - 55)
  else none

/-- Value of a hex-digit string, `none` on a non-hex character. -/
def hexValue (s : List Char) : Option Nat :=
  s.foldl (fun acc c => acc.bind (fun v => (hexVal? c).map (fun h => v * 16 + h)))
    (some 0)

/-- The simple 32-hex-digit UUID format. -/
def parseSimpleUuid (s : List Char) : Option Nat :=
  if s.length = 32 then hexValue s else none

/-- The hyphenated 8-4-4-4-12 UUID format. -/
def parseHyphenatedUuid (s : List Char) : Option Nat :=
  match s.splitOn '-' with
  | [a, b, c, d, e] =>
    if a.length = 8 ∧ b.length = 4 ∧ c.length = 4 ∧ d.length = 4 ∧ e.length = 12 then
      hexValue (a ++ b ++ c ++ d ++ e)
    else none
  | _ => none

/-- `Uuid::parse_str`: hyphenated, simple, urn-prefixed or braced. -/
def parseUuidStr (s : List Char) : Option Nat :=
  match parseHyphenatedUuid s with
  | some v => some v
  | none =>
    match parseSimpleUuid s with
    | some v => some v
    | none =>
      match s with
      | 'u' :: 'r' :: 'n' :: ':' :: 'u' :: 'u' :: 'i' :: 'd' :: ':' :: rest =>
        parseHyphenatedUuid rest
      | '\x7b' :: rest =>
        if rest.getLast? = some '\x7d' then parseHyphenatedUuid rest.dropLast else none
      | _ => none

/-- `LinkParser::parse_target`: trim, try UUID, else title. -/
def parse_target (target : List Char) : LinkTarget :=
  let trimmed := rustTrim target
  match parseUuidStr trimmed with
  | some v => .id v
  | none => .title trimmed

/-- The target character class `[^\[\]|]`. -/
def isTargetChar (c : Char) : Bool := !(c == '[' || c == ']' || c == '|')

/-- The display-text character class `[^\[\]]`. -/
def isDisplayChar (c : Char) : Bool := !(c == '[' || c == ']')

/-- Match the wiki pattern at the start of `s`: `[[`, one or more target
characters, optionally `|` plus one or more display characters, then
`]]`.  Returns the target, the display text and the matched length. -/
def matchWikiAt (s : List Char) : Option (List Char × Option (List Char) × Nat) :=
  match s with
  | '[' :: '[' :: rest =>
    let tgt := rest.takeWhile isTargetChar
    if tgt.isEmpty then none
    else
      match rest.drop tgt.length with
      | ']' :: ']' :: _ => some (tgt, none, tgt.length + 4)
      | '|' :: rest2 =>
        let disp := rest2.takeWhile isDisplayChar
        if disp.isEmpty then none
        else
          match rest2.drop disp.length with
          | ']' :: ']' :: _ => some (tgt, some disp, tgt.length + disp.length + 5)
          | _ => none
      | _ => none
  | _ => none

/-- The embed pattern: `!` followed by the wiki pattern. -/
def matchEmbedAt (s : List Char) : Option (List Char × Option (List Char) × Nat) :=
  match s with
  | '!' :: rest => (matchWikiAt rest).map (fun r => (r.1, r.2.1, r.2.2 + 1))
  | _ => none

/-- The mention pattern: `@` followed by the wiki pattern. -/
def matchMentionAt (s : List Char) : Option (List Char × Option (List Char) × Nat) :=
  match s with
  | '@' :: rest => (matchWikiAt rest).map (fun r => (r.1, r.2.1, r.2.2 + 1))
  | _ => none

/-- `captures_iter` body: leftmost non-overlapping matches with their
start positions.  Every step consumes at least one character (a match has
positive length), so `s.length` fuel runs the scan to the end of the
input. -/
def scanMatchesF (matchAt : List Char → Option (List Char × Option (List Char) × Nat)) :
    Nat → Nat → List Char → List (Nat × List Char × Option (List Char) × Nat)
  | 0, _, _ => []
  | _ + 1, _, [] => []
  | fuel + 1, pos, c :: rest =>
    match matchAt (c :: rest) with
    | some m => (pos, m) :: scanMatchesF matchAt fuel (pos + m.2.2) (List.drop (m.2.2 - 1) rest)
    | none => scanMatchesF matchAt fuel (pos + 1) rest

/-- `captures_iter` at full fuel. -/
def scanMatches (matchAt : List Char → Option (List Char × Option (List Char) × Nat))
    (pos : Nat) (s : List Char) : List (Nat × List Char × Option (List Char) × Nat) :=
  scanMatchesF matchAt s.length pos s

/-- One of the three loops of `parse_links`: skip matches whose start is
in `processed_positions`, record the start (embed and mention loops only)
and push the link. -/
def processMatches (lt : LinkType) (insertPos : Bool)
    (acc : List Nat × List DocumentLink)
    (ms : List (Nat × List Char × Option (List Char) × Nat)) :
    List Nat × List DocumentLink :=
  ms.foldl (fun acc m =>
    if m.1 ∈ acc.1 then acc
    else ((if insertPos then m.1 :: acc.1 else acc.1),
      acc.2 ++ [⟨parse_target m.2.1, lt, m.2.2.1, m.1, m.1 + m.2.2.2⟩])) acc

/-- Stable insertion for the final `sort_by_key(position_start)`. -/
def insertSorted (l : DocumentLink) : List DocumentLink → List DocumentLink
  | [] => [l]
  | x :: xs =>
    if l.position_start < x.position_start then l :: x :: xs
    else x :: insertSorted l xs

/-- Sort links by `position_start` (all starts are distinct, so stability
is immaterial). -/
def sortByStart (ls : List DocumentLink) : List DocumentLink :=
  ls.foldl (fun acc l => insertSorted l acc) []

/-- `LinkParser::parse_links`: the embed pass, then the mention pass (both
record their match starts), then the wiki pass which skips a match only
when its own start — one byte after the `!`/`@` — was recorded, then the
sort. -/
def parse_links (content : List Char) : List DocumentLink :=
  let acc1 := processMatches .embed true ([], []) (scanMatches matchEmbedAt 0 content)
  let acc2 := processMatches .mention true acc1 (scanMatches matchMentionAt 0 content)
  let acc3 := processMatches .reference false acc2 (scanMatches matchWikiAt 0 content)
  sortByStart acc3.2

/-- The body of end-to-end scenario 4 of the spec. -/
def scenario4Body : List Char :=
  "See [[My Notes]] and ![[Q1 Notes|overview]] @[[Alice]]".toList

/-- The content of the parser's own unit test `test_parse_embed_links`,
which asserts that it parses to exactly one link. -/
def embedTestBody : List Char :=
  "Embed this ![[Embedded Document]] here.".toList

/-! ## Encryption service

Embeds `EncryptionService` (src/api/src/utils/encryption.rs) together
with the AES-256-GCM construction of the `aes_gcm` crate (FIPS-197 and
NIST SP 800-38D) and the standard base64 alphabet used by the `base64`
crate.  Bytes are `Nat` values below 256; plaintext strings are modelled
by their UTF-8 byte sequences, so `as_bytes`/`from_utf8` is the identity
bridge; the 12 random nonce bytes are an explicit parameter. -/

/-- The AES S-box, packed little-endian: byte `i` of the constant is
`S[i]`. -/
def sboxN : Nat := 0x16bb54b00f2d99416842e6bf0d89a18cdf2855cee9871e9b948ed9691198f8e19e1dc186b95735610ef6034866b53e708a8bbd4b1f74dde8c6b4a61c2e2578ba08ae7a65eaf4566ca94ed58d6d37c8e779e4959162acd3c25c2406490a3a32e0db0b5ede14b8ee4688902a22dc4f816073195d643d7ea7c41744975fec130ccdd2f3ff1021dab6bcf5389d928f40a351a89f3c507f02f94585334d43fbaaefd0cf584c4a39becb6a5bb1fc20ed00d153842fe329b3d63b52a05a6e1b1a2c830975b227ebe28012079a059618c323c7041531d871f1e5a534ccf73f362693fdb7c072a49cafa2d4adf04759fa7dc982ca76abd7fe2b670130c56f6bf27b777c63

/-- S-box lookup. -/
def sb (b : Nat) : Nat := (sboxN >>> (8 * b)) % 256

/-- Multiplication by x in GF(2^8) modulo x^8+x^4+x^3+x+1. -/
def xtime (b : Nat) : Nat :=
  if 128 ≤ b then ((2 * b) ^^^ 27) % 256 else (2 * b) % 256

/-- Byte-wise xor of two words. -/
def xorWord (a b : List Nat) : List Nat := List.zipWith (fun x y => x ^^^ y) a b

/-- Rotate a 4-byte word left by one byte. -/
def rotWord : List Nat → List Nat
  | [a, b, c, d] => [b, c, d, a]
  | w => w

/-- Apply the S-box to each byte of a word. -/
def subWord (w : List Nat) : List Nat := w.map sb

/-- The round constants of the AES-256 key schedule. -/
def rconByte (i : Nat) : Nat := [1, 2, 4, 8, 16, 32, 64].getD (i - 1) 0

/-- One step of the AES-256 key schedule: word `i` from the previous 8. -/
def nextWord (ws : List (List Nat)) : List Nat :=
  let i := ws.length
  let temp := ws.getLast?.getD []
  let temp :=
    if i % 8 = 0 then xorWord (subWord (rotWord temp)) [rconByte (i / 8), 0, 0, 0]
    else if i % 8 = 4 then subWord temp
    else temp
  xorWord (ws.getD (i - 8) []) temp

/-- The AES-256 key schedule: 60 four-byte words from the 32 key bytes. -/
def keySchedule (keyBytes : List Nat) : List (List Nat) :=
  let w0 := (List.range 8).map (fun i => ((keyBytes.drop (4 * i)).take 4))
  (List.range 52).foldl (fun ws _ => ws ++ [nextWord ws]) w0

/-- ShiftRows on the flat column-major state (`s[r + 4c]` is row r,
column c). -/
def shiftRows (s : List Nat) : List Nat :=
  (List.range 16).map (fun i => s.getD ((i % 4) + 4 * (((i / 4) + (i % 4)) % 4)) 0)

/-- MixColumns on one column. -/
def mixColumn : List Nat → List Nat
  | [a0, a1, a2, a3] =>
    [xtime a0 ^^^ (xtime a1 ^^^ a1) ^^^ a2 ^^^ a3,
     a0 ^^^ xtime a1 ^^^ (xtime a2 ^^^ a2) ^^^ a3,
     a0 ^^^ a1 ^^^ xtime a2 ^^^ (xtime a3 ^^^ a3),
     (xtime a0 ^^^ a0) ^^^ a1 ^^^ a2 ^^^ xtime a3]
  | c => c

/-- MixColumns on the state. -/
def mixColumns (s : List Nat) : List Nat :=
  ((List.range 4).map (fun c => mixColumn ((s.drop (4 * c)).take 4))).flatten

/-- AddRoundKey: xor the state with round-key words `4r..4r+3`. -/
def addRoundKey (ws : List (List Nat)) (round : Nat) (s : List Nat) : List Nat :=
  (List.range 16).map (fun i =>
    s.getD i 0 ^^^ ((ws.getD (4 * round + i / 4) []).getD (i % 4) 0))

/-- The AES-256 block cipher (14 rounds). -/
def aesEncryptBlock (ws : List (List Nat)) (input : List Nat) : List Nat :=
  let s0 := addRoundKey ws 0 input
  let s1 := (List.range 13).foldl
    (fun s r => addRoundKey ws (r + 1) (mixColumns (shiftRows (s.map sb)))) s0
  addRoundKey ws 14 (shiftRows (s1.map sb))

/-- Big-endian bytes to a natural number. -/
def bytesToNat (bs : List Nat) : Nat := bs.foldl (fun acc b => acc * 256 + b) 0

/-- The `k` low-order bytes of a natural number, big-endian. -/
def natToBytes : Nat → Nat → List Nat
  | 0, _ => []
  | k + 1, v => natToBytes k (v / 256) ++ [v % 256]

/-- Multiplication in GCM's GF(2^128) (big-endian block values, GCM bit
order, right-shift algorithm of SP 800-38D). -/
def gfMul (x y : Nat) : Nat :=
  ((List.range 128).foldl (fun zv i =>
    let z := if x.testBit (127 - i) then zv.1 ^^^ zv.2 else zv.1
    let v := if zv.2 % 2 = 1 then (zv.2 >>> 1) ^^^ (225 <<< 120) else zv.2 >>> 1
    (z, v)) ((0 : Nat), y)).1

/-- Zero-pad to a multiple of 16 bytes. -/
def padTo16 (bs : List Nat) : List Nat :=
  bs ++ List.replicate ((16 - bs.length % 16) % 16) 0

/-- Split into 16-byte chunks (fuel-driven; `bs.length` fuel suffices
since each step consumes at least one byte). -/
def chunks16F : Nat → List Nat → List (List Nat)
  | 0, _ => []
  | _ + 1, [] => []
  | fuel + 1, bs => bs.take 16 :: chunks16F fuel (bs.drop 16)

/-- Split into 16-byte chunks. -/
def chunks16 (bs : List Nat) : List (List Nat) := chunks16F bs.length bs

/-- GHASH over a list of block values. -/
def ghashBlocks (h : Nat) (blocks : List Nat) : Nat :=
  blocks.foldl (fun y b => gfMul (y ^^^ b) h) 0

/-- The GCM authentication tag over a ciphertext with empty AAD:
`GHASH_H(C ∥ len) ⊕ E_K(J0)`. -/
def gcmTag (ws : List (List Nat)) (iv : List Nat) (ct : List Nat) : List Nat :=
  let h := bytesToNat (aesEncryptBlock ws (List.replicate 16 0))
  let j0 := bytesToNat (iv ++ [0, 0, 0, 1])
  let x := ghashBlocks h (((chunks16 (padTo16 ct)).map bytesToNat) ++ [8 * ct.length])
  natToBytes 16 (x ^^^ bytesToNat (aesEncryptBlock ws (natToBytes 16 j0)))

/-- Increment the low 32 bits of a counter block. -/
def inc32 (b : Nat) : Nat :=
  (b / 4294967296) * 4294967296 + ((b % 4294967296 + 1) % 4294967296)

/-- Iterated `inc32`. -/
def ctrAt (j0 : Nat) : Nat → Nat
  | 0 => j0
  | i + 1 => inc32 (ctrAt j0 i)

/-- The first `n` CTR keystream bytes for a 96-bit IV. -/
def keystream (ws : List (List Nat)) (iv : List Nat) (n : Nat) : List Nat :=
  let j0 := bytesToNat (iv ++ [0, 0, 0, 1])
  (((List.range ((n + 15) / 16)).map
    (fun i => aesEncryptBlock ws (natToBytes 16 (ctrAt j0 (i + 1))))).flatten).take n

/-- Byte-wise xor. -/
def zipXor (a b : List Nat) : List Nat := List.zipWith (fun x y => x ^^^ y) a b

/-- The standard base64 alphabet. -/
def b64Alphabet : List Char :=
  "ABCDEFGHIJKLMNOPQRSTUVWXYZabcdefghijklmnopqrstuvwxyz0123456789+/".toList

/-- Sextet to base64 character. -/
def b64Char (n : Nat) : Char := b64Alphabet.getD n 'A'

/-- Base64 character to sextet. -/
def b64Index? (c : Char) : Option Nat := b64Alphabet.findIdx? (fun x => x == c)

/-- Base64 encoding with `=` padding (`general_purpose::STANDARD`). -/
def base64Encode : List Nat → List Char
  | a :: b :: c :: rest =>
    b64Char (a / 4) :: b64Char ((a % 4) * 16 + b / 16) ::
      b64Char ((b % 16) * 4 + c / 64) :: b64Char (c % 64) :: base64Encode rest
  | [a, b] => [b64Char (a / 4), b64Char ((a % 4) * 16 + b / 16), b64Char ((b % 16) * 4), '=']
  | [a] => [b64Char (a / 4), b64Char ((a % 4) * 16), '=', '=']
  | [] => []

/-- Strict base64 decoding: complete 4-character groups, canonical
padding, `none` otherwise. -/
def base64Decode : List Char → Option (List Nat)
  | [] => some []
  | c1 :: c2 :: c3 :: c4 :: rest =>
    if rest = [] ∧ c3 = '=' ∧ c4 = '=' then
      (b64Index? c1).bind fun v1 => (b64Index? c2).bind fun v2 =>
        if v2 % 16 = 0 then some [v1 * 4 + v2 / 16] else none
    else if rest = [] ∧ c4 = '=' then
      (b64Index? c1).bind fun v1 => (b64Index? c2).bind fun v2 =>
        (b64Index? c3).bind fun v3 =>
          if v3 % 4 = 0 then some [v1 * 4 + v2 / 16, (v2 % 16) * 16 + v3 / 4] else none
    else
      (b64Index? c1).bind fun v1 => (b64Index? c2).bind fun v2 =>
        (b64Index? c3).bind fun v3 => (b64Index? c4).bind fun v4 =>
          (base64Decode rest).map (fun bs =>
            (v1 * 4 + v2 / 16) :: ((v2 % 16) * 16 + v3 / 4) :: ((v3 % 4) * 64 + v4) :: bs)
  | _ => none

/-- UTF-8 encoding of one character. -/
def utf8Bytes (c : Char) : List Nat :=
  let n := c.toNat
  if n < 128 then [n]
  else if n < 2048 then [192 + n / 64, 128 + n % 64]
  else if n < 65536 then [224 + n / 4096, 128 + (n / 64) % 64, 128 + n % 64]
  else [240 + n / 262144, 128 + (n / 4096) % 64, 128 + (n / 64) % 64, 128 + n % 64]

/-- `EncryptionService::new`: pad the key string with `0` characters to at
least 64 characters (`format!("{:0<64}", key)`) and take the first 32
bytes as the AES-256 key. -/
def deriveKey (key : List Char) : List Nat :=
  let padded := if key.length < 64 then key ++ List.replicate (64 - key.length) '0' else key
  ((padded.map utf8Bytes).flatten).take 32

/-- `EncryptionService::encrypt` with the 12 random nonce bytes passed
explicitly: AES-256-GCM encrypt, prepend the nonce, base64-encode. -/
def encryptService (key : List Nat) (nonce : List Nat) (plaintext : List Nat) :
    List Char :=
  let ws := keySchedule key
  let ct := zipXor plaintext (keystream ws nonce plaintext.length)
  let tag := gcmTag ws nonce ct
  base64Encode (nonce ++ (ct ++ tag))

/-- `EncryptionService::decrypt`: base64-decode, check the length, split
the nonce, then AES-256-GCM decrypt (the crate splits the 16-byte tag,
recomputes it and compares before CTR-decrypting). -/
def decryptService (key : List Nat) (encrypted_data : List Char) :
    Except String (List Nat) :=
  match base64Decode encrypted_data with
  | none => .error "Invalid encrypted data"
  | some data =>
    if data.length < 12 then .error "Invalid encrypted data length"
    else
      let nonce := data.take 12
      let rest := data.drop 12
      if rest.length < 16 then .error "Decryption failed"
      else
        let ct := rest.take (rest.length - 16)
        let tag := rest.drop (rest.length - 16)
        let ws := keySchedule key
        if gcmTag ws nonce ct = tag then
          .ok (zipXor ct (keystream ws nonce ct.length))
        else .error "Decryption failed"

/-! ## Lemmas about the collapse loop -/

theorem collapseRuns_cons_cons (a b : Char) (rest : List Char) :
    collapseRuns (a :: b :: rest) =
      if a == '-' && b == '-' then collapseRuns (b :: rest)
      else a :: collapseRuns (b :: rest) := rfl

theorem replaceDashPairs_cons_cons (a b : Char) (rest : List Char) :
    replaceDashPairs (a :: b :: rest) =
      if a == '-' && b == '-' then '-' :: replaceDashPairs rest
      else a :: replaceDashPairs (b :: rest) := rfl

theorem containsDashPair_cons_cons (a b : Char) (rest : List Char) :
    containsDashPair (a :: b :: rest) =
      ((a == '-' && b == '-') || containsDashPair (b :: rest)) := rfl

theorem collapseRuns_headq (c : Char) (t : List Char) :
    (collapseRuns (c :: t)).head? = some c := by
  induction t generalizing c with
  | nil => rfl
  | cons b rest ih =>
    by_cases h : (c == '-' && b == '-') = true
    · have hc : c = '-' := beq_iff_eq.mp ((Bool.and_eq_true _ _).mp h).1
      have hb : b = '-' := beq_iff_eq.mp ((Bool.and_eq_true _ _).mp h).2
      rw [collapseRuns_cons_cons, if_pos h, ih b, hb, hc]
    · rw [collapseRuns_cons_cons, if_neg h]
      rfl

theorem collapseRuns_headq_eq (s : List Char) :
    (collapseRuns s).head? = s.head? := by
  cases s with
  | nil => rfl
  | cons c t => rw [collapseRuns_headq]; rfl

theorem collapseRuns_cons_exists (b : Char) (t : List Char) :
    ∃ w, collapseRuns (b :: t) = b :: w := by
  cases hcr : collapseRuns (b :: t) with
  | nil =>
    have h := collapseRuns_headq b t
    rw [hcr] at h
    simp at h
  | cons x w =>
    have h := collapseRuns_headq b t
    rw [hcr] at h
    simp only [List.head?_cons, Option.some.injEq] at h
    exact ⟨w, by rw [h]⟩

theorem collapseRuns_noDashPair (s : List Char) :
    containsDashPair (collapseRuns s) = false := by
  induction s using collapseRuns.induct with
  | case1 a b rest h ih =>
    rw [collapseRuns_cons_cons, if_pos h]
    exact ih
  | case2 a b rest h ih =>
    rw [collapseRuns_cons_cons, if_neg h]
    obtain ⟨w, hw⟩ := collapseRuns_cons_exists b rest
    rw [hw]
    rw [hw] at ih
    rw [containsDashPair_cons_cons]
    simp only [Bool.or_eq_false_iff]
    refine ⟨?_, ih⟩
    by_cases ha : (a == '-') = true
    · have hb : (b == '-') = false := by
        cases hb2 : (b == '-') with
        | false => rfl
        | true => exact absurd (by rw [ha, hb2]; rfl) h
      rw [hb, Bool.and_false]
    · simp only [Bool.not_eq_true] at ha
      rw [ha, Bool.false_and]
  | case3 s hns =>
    cases s with
    | nil => rfl
    | cons a t =>
      cases t with
      | nil => rfl
      | cons b rest => exact absurd rfl (fun h => hns a b rest h)

theorem collapseRuns_of_noDashPair (s : List Char) (h : containsDashPair s = false) :
    collapseRuns s = s := by
  induction s using collapseRuns.induct with
  | case1 a b rest hp ih =>
    rw [containsDashPair_cons_cons] at h
    simp only [Bool.or_eq_false_iff] at h
    rw [hp] at h
    exact absurd h.1 (by simp)
  | case2 a b rest hp ih =>
    rw [containsDashPair_cons_cons] at h
    simp only [Bool.or_eq_false_iff] at h
    rw [collapseRuns_cons_cons, if_neg hp, ih h.2]
  | case3 s hns =>
    cases s with
    | nil => rfl
    | cons a t =>
      cases t with
      | nil => rfl
      | cons b rest => exact absurd rfl (fun hh => hns a b rest hh)

theorem replaceDashPairs_headq (c : Char) (t : List Char) :
    (replaceDashPairs (c :: t)).head? = some c := by
  cases t with
  | nil => rfl
  | cons b rest =>
    by_cases h : (c == '-' && b == '-') = true
    · have hc : c = '-' := beq_iff_eq.mp ((Bool.and_eq_true _ _).mp h).1
      rw [replaceDashPairs_cons_cons, if_pos h, hc]
      rfl
    · rw [replaceDashPairs_cons_cons, if_neg h]
      rfl

theorem replaceDashPairs_cons_exists (b : Char) (t : List Char) :
    ∃ w, replaceDashPairs (b :: t) = b :: w := by
  cases hr : replaceDashPairs (b :: t) with
  | nil =>
    have h := replaceDashPairs_headq b t
    rw [hr] at h
    simp at h
  | cons x w =>
    have h := replaceDashPairs_headq b t
    rw [hr] at h
    simp only [List.head?_cons, Option.some.injEq] at h
    exact ⟨w, by rw [h]⟩

theorem collapseRuns_dash_cons (u : List Char) :
    collapseRuns ('-' :: u) =
      if (collapseRuns u).head? = some '-' then collapseRuns u
      else '-' :: collapseRuns u := by
  cases u with
  | nil => decide
  | cons b t =>
    by_cases hb : b = '-'
    · subst hb
      have hpair : (('-' : Char) == '-' && ('-' : Char) == '-') = true := by decide
      rw [collapseRuns_cons_cons, if_pos hpair]
      rw [collapseRuns_headq, if_pos rfl]
    · have hpair : ¬ (('-' : Char) == '-' && b == '-') = true := by
        have hb2 : (b == '-') = false := beq_eq_false_iff_ne.mpr hb
        rw [hb2, Bool.and_false]
        exact Bool.false_ne_true
      rw [collapseRuns_cons_cons, if_neg hpair]
      rw [collapseRuns_headq]
      rw [if_neg (by simpa using hb)]

theorem collapseRuns_replaceDashPairs (s : List Char) :
    collapseRuns (replaceDashPairs s) = collapseRuns s := by
  induction s using replaceDashPairs.induct with
  | case1 a b rest h ih =>
    have ha : a = '-' := beq_iff_eq.mp ((Bool.and_eq_true _ _).mp h).1
    have hb : b = '-' := beq_iff_eq.mp ((Bool.and_eq_true _ _).mp h).2
    subst ha; subst hb
    rw [replaceDashPairs_cons_cons, if_pos h]
    conv_rhs => rw [collapseRuns_cons_cons, if_pos h]
    rw [collapseRuns_dash_cons, collapseRuns_dash_cons, ih]
  | case2 a b rest h ih =>
    have hrw : collapseRuns (a :: b :: rest) = a :: collapseRuns (b :: rest) := by
      rw [collapseRuns_cons_cons, if_neg h]
    rw [replaceDashPairs_cons_cons, if_neg h, hrw]
    by_cases ha : a = '-'
    · subst ha
      have hbne : b ≠ '-' := by
        intro hb
        exact h (by rw [hb]; decide)
      rw [collapseRuns_dash_cons, ih, collapseRuns_headq,
        if_neg (by simpa using hbne)]
    · obtain ⟨w, hw⟩ := replaceDashPairs_cons_exists b rest
      rw [hw]
      have hpair : ¬ (a == '-' && b == '-') = true := by
        have ha2 : (a == '-') = false := beq_eq_false_iff_ne.mpr ha
        rw [ha2, Bool.false_and]
        exact Bool.false_ne_true
      rw [collapseRuns_cons_cons, if_neg hpair, ← hw, ih]
  | case3 s hns =>
    cases s with
    | nil => rfl
    | cons a t =>
      cases t with
      | nil => rfl
      | cons b rest => exact absurd rfl (fun hh => hns a b rest hh)

theorem replaceDashPairs_length_le (s : List Char) :
    (replaceDashPairs s).length ≤ s.length := by
  induction s using replaceDashPairs.induct with
  | case1 a b rest h ih =>
    rw [replaceDashPairs_cons_cons, if_pos h]
    simp only [List.length_cons] at *
    omega
  | case2 a b rest h ih =>
    rw [replaceDashPairs_cons_cons, if_neg h]
    simp only [List.length_cons] at *
    omega
  | case3 s hns =>
    cases s with
    | nil => exact Nat.le_refl _
    | cons a t =>
      cases t with
      | nil => exact Nat.le_refl _
      | cons b rest => exact absurd rfl (fun hh => hns a b rest hh)

theorem replaceDashPairs_length_lt (s : List Char)
    (h : containsDashPair s = true) : (replaceDashPairs s).length < s.length := by
  induction s using replaceDashPairs.induct with
  | case1 a b rest hp ih =>
    rw [replaceDashPairs_cons_cons, if_pos hp]
    have hle := replaceDashPairs_length_le rest
    simp only [List.length_cons] at *
    omega
  | case2 a b rest hp ih =>
    rw [containsDashPair_cons_cons] at h
    have h2 : containsDashPair (b :: rest) = true := by
      cases h3 : containsDashPair (b :: rest) with
      | true => rfl
      | false =>
        rw [h3, Bool.or_false] at h
        exact absurd h hp
    rw [replaceDashPairs_cons_cons, if_neg hp]
    have := ih h2
    simp only [List.length_cons] at *
    omega
  | case3 s hns =>
    cases s with
    | nil => simp [containsDashPair] at h
    | cons a t =>
      cases t with
      | nil => simp [containsDashPair] at h
      | cons b rest => exact absurd rfl (fun hh => hns a b rest hh)

theorem collapseLoop_eq_runs (n : Nat) (s : List Char) (h : s.length ≤ n) :
    collapseLoop n s = collapseRuns s := by
  induction n generalizing s with
  | zero =>
    have : s = [] := List.length_eq_zero.mp (Nat.le_zero.mp h)
    subst this
    rfl
  | succ n ih =>
    rw [collapseLoop]
    by_cases hd : containsDashPair s = true
    · rw [if_pos hd]
      have hlen : (replaceDashPairs s).length ≤ n := by
        have := replaceDashPairs_length_lt s hd
        omega
      rw [ih _ hlen, collapseRuns_replaceDashPairs]
    · rw [if_neg hd]
      exact (collapseRuns_of_noDashPair s (Bool.not_eq_true _ ▸ eq_false_of_ne_true hd)).symm

theorem collapseDashes_eq_runs (s : List Char) :
    collapseDashes s = collapseRuns s :=
  collapseLoop_eq_runs s.length s (Nat.le_refl _)

theorem collapseRuns_mem (x : Char) (s : List Char) (h : x ∈ collapseRuns s) :
    x ∈ s := by
  induction s using collapseRuns.induct with
  | case1 a b rest hp ih =>
    rw [collapseRuns_cons_cons, if_pos hp] at h
    exact List.mem_cons_of_mem a (ih h)
  | case2 a b rest hp ih =>
    rw [collapseRuns_cons_cons, if_neg hp] at h
    rcases List.mem_cons.mp h with h1 | h2
    · exact h1 ▸ List.mem_cons_self x _
    · exact List.mem_cons_of_mem a (ih h2)
  | case3 s hns =>
    cases s with
    | nil => exact h
    | cons a t =>
      cases t with
      | nil => exact h
      | cons b rest => exact absurd rfl (fun hh => hns a b rest hh)

theorem collapseRuns_utf8Len_le (s : List Char) :
    utf8Len (collapseRuns s) ≤ utf8Len s := by
  induction s using collapseRuns.induct with
  | case1 a b rest hp ih =>
    rw [collapseRuns_cons_cons, if_pos hp, utf8Len]
    have : utf8Len (b :: rest) ≤ a.utf8Size + utf8Len (b :: rest) := Nat.le_add_left _ _
    exact Nat.le_trans ih this
  | case2 a b rest hp ih =>
    rw [collapseRuns_cons_cons, if_neg hp, utf8Len]
    rw [utf8Len]
    exact Nat.add_le_add_left ih _
  | case3 s hns =>
    cases s with
    | nil => exact Nat.le_refl _
    | cons a t =>
      cases t with
      | nil => exact Nat.le_refl _
      | cons b rest => exact absurd rfl (fun hh => hns a b rest hh)

theorem collapseRuns_getLastq (s : List Char) :
    (collapseRuns s).getLast? = s.getLast? := by
  induction s using collapseRuns.induct with
  | case1 a b rest hp ih =>
    rw [collapseRuns_cons_cons, if_pos hp, ih, List.getLast?_cons_cons]
  | case2 a b rest hp ih =>
    rw [collapseRuns_cons_cons, if_neg hp]
    obtain ⟨w, hw⟩ := collapseRuns_cons_exists b rest
    rw [hw]
    rw [hw] at ih
    rw [List.getLast?_cons_cons, ih, List.getLast?_cons_cons]
  | case3 s hns =>
    cases s with
    | nil => rfl
    | cons a t =>
      cases t with
      | nil => rfl
      | cons b rest => exact absurd rfl (fun hh => hns a b rest hh)

/-! ## Lemmas about character replacement and trimming -/

theorem replaceChar_mem (o n x : Char) (s : List Char)
    (h : x ∈ replaceChar o n s) : x = n ∨ (x ∈ s ∧ x ≠ o) := by
  unfold replaceChar at h
  obtain ⟨c, hc, hfc⟩ := List.mem_map.mp h
  by_cases hco : c = o
  · left
    rw [← hfc, if_pos hco]
  · right
    rw [← hfc, if_neg hco]
    exact ⟨hc, hco⟩

theorem replaceChar_not_mem (o n : Char) (s : List Char) (h : o ≠ n) :
    o ∉ replaceChar o n s := by
  intro hmem
  rcases replaceChar_mem o n o s hmem with h1 | h2
  · exact h h1
  · exact h2.2 rfl

theorem replaceChar_eq_self (o n : Char) (s : List Char)
    (h : ∀ c ∈ s, c ≠ o) : replaceChar o n s = s := by
  unfold replaceChar
  have := List.map_congr_left (l := s) (f := fun c => if c = o then n else c)
    (g := id) (fun c hc => if_neg (h c hc))
  rw [this, List.map_id]

theorem replaceChar_utf8Len (o n : Char) (s : List Char)
    (h : o.utf8Size = n.utf8Size) :
    utf8Len (replaceChar o n s) = utf8Len s := by
  induction s with
  | nil => rfl
  | cons c t ih =>
    unfold replaceChar at *
    rw [List.map_cons, utf8Len, utf8Len, ih]
    by_cases hc : c = o
    · rw [if_pos hc, hc, h]
    · rw [if_neg hc]

theorem replaceChar_dashPair (o n : Char) (s : List Char)
    (ho : o ≠ '-') (hn : n ≠ '-') :
    containsDashPair (replaceChar o n s) = containsDashPair s := by
  have hpt : ∀ c : Char, ((if c = o then n else c) == '-') = (c == '-') := by
    intro c
    by_cases hc : c = o
    · rw [if_pos hc]
      have h1 : (n == '-') = false := beq_eq_false_iff_ne.mpr hn
      have h2 : (c == '-') = false := beq_eq_false_iff_ne.mpr (hc ▸ ho)
      rw [h1, h2]
    · rw [if_neg hc]
  induction s with
  | nil => rfl
  | cons a t ih =>
    cases t with
    | nil => rfl
    | cons b rest =>
      have e1 : replaceChar o n (a :: b :: rest) =
          (if a = o then n else a) :: (if b = o then n else b) :: replaceChar o n rest := rfl
      have e2 : replaceChar o n (b :: rest) =
          (if b = o then n else b) :: replaceChar o n rest := rfl
      rw [e1, containsDashPair_cons_cons, containsDashPair_cons_cons, hpt a, hpt b, ← e2, ih]

theorem replaceChar_headq (o n : Char) (s : List Char) :
    (replaceChar o n s).head? = s.head?.map (fun c => if c = o then n else c) :=
  List.head?_map _ s

theorem replaceChar_getLastq (o n : Char) (s : List Char) :
    (replaceChar o n s).getLast? = s.getLast?.map (fun c => if c = o then n else c) :=
  List.getLast?_map _ s

theorem replaceChar_ends (o n : Char) (s : List Char)
    (hn : rustIsWhitespace n = false) (h : nonWsEnds s) :
    nonWsEnds (replaceChar o n s) := by
  obtain ⟨h1, h2⟩ := h
  constructor
  · intro c hc
    rw [replaceChar_headq] at hc
    cases hs : s.head? with
    | none => rw [hs, Option.map_none'] at hc; cases hc
    | some d =>
      rw [hs, Option.map_some'] at hc
      injection hc with hc
      subst hc
      by_cases hd : d = o
      · rw [if_pos hd]
        exact hn
      · rw [if_neg hd]
        exact h1 d hs
  · intro c hc
    rw [replaceChar_getLastq] at hc
    cases hs : s.getLast? with
    | none => rw [hs, Option.map_none'] at hc; cases hc
    | some d =>
      rw [hs, Option.map_some'] at hc
      injection hc with hc
      subst hc
      by_cases hd : d = o
      · rw [if_pos hd]
        exact hn
      · rw [if_neg hd]
        exact h2 d hs

theorem foldRepl_cons (o : Char) (L : List Char) (s : List Char) :
    foldRepl (o :: L) s = foldRepl L (replaceChar o '-' s) := rfl

theorem replaceInvalid_eq_foldRepl (s : List Char) :
    replaceInvalid s = foldRepl invalidChars s := rfl

theorem foldRepl_mem (L : List Char) (s : List Char) (x : Char)
    (h : x ∈ foldRepl L s) : x = '-' ∨ x ∈ s := by
  induction L generalizing s with
  | nil => exact Or.inr h
  | cons o L ih =>
    rw [foldRepl_cons] at h
    rcases ih _ h with h1 | h2
    · exact Or.inl h1
    · rcases replaceChar_mem o '-' x s h2 with h3 | h4
      · exact Or.inl h3
      · exact Or.inr h4.1

theorem foldRepl_not_mem (L : List Char) (c : Char) (hne : c ≠ '-') :
    ∀ s, c ∈ L → c ∉ foldRepl L s := by
  induction L with
  | nil =>
    intro s hc
    cases hc
  | cons o L ih =>
    intro s hc
    rw [foldRepl_cons]
    rcases List.mem_cons.mp hc with h1 | h2
    · subst h1
      intro hmem
      rcases foldRepl_mem L _ c hmem with h3 | h4
      · exact hne h3
      · rcases replaceChar_mem c '-' c s h4 with h5 | h6
        · exact hne h5
        · exact h6.2 rfl
    · exact ih _ h2

theorem foldRepl_eq_self (L : List Char) (s : List Char)
    (h : ∀ o ∈ L, o ∉ s) : foldRepl L s = s := by
  induction L with
  | nil => rfl
  | cons o L ih =>
    rw [foldRepl_cons]
    have ho : replaceChar o '-' s = s :=
      replaceChar_eq_self o '-' s (fun c hc hco => h o (List.mem_cons_self o L) (hco ▸ hc))
    rw [ho]
    exact ih (fun o' ho' => h o' (List.mem_cons_of_mem o ho'))

theorem foldRepl_utf8Len (L : List Char) (s : List Char)
    (h : ∀ o ∈ L, o.utf8Size = 1) : utf8Len (foldRepl L s) = utf8Len s := by
  induction L generalizing s with
  | nil => rfl
  | cons o L ih =>
    rw [foldRepl_cons]
    rw [ih _ (fun o' ho' => h o' (List.mem_cons_of_mem o ho'))]
    exact replaceChar_utf8Len o '-' s (h o (List.mem_cons_self o L))

theorem foldRepl_ends (L : List Char) (s : List Char) (h : nonWsEnds s) :
    nonWsEnds (foldRepl L s) := by
  induction L generalizing s with
  | nil => exact h
  | cons o L ih =>
    rw [foldRepl_cons]
    exact ih _ (replaceChar_ends o '-' s (by decide) h)

theorem dropWhile_headq_not (p : Char → Bool) (l : List Char) (c : Char)
    (h : (l.dropWhile p).head? = some c) : p c = false := by
  induction l with
  | nil => simp [List.dropWhile] at h
  | cons a t ih =>
    rw [List.dropWhile_cons] at h
    by_cases hp : p a = true
    · rw [if_pos hp] at h
      exact ih h
    · rw [if_neg hp] at h
      simp only [List.head?_cons, Option.some.injEq] at h
      subst h
      exact eq_false_of_ne_true hp

theorem dropWhile_eq_self_of (p : Char → Bool) (l : List Char)
    (h : ∀ c, l.head? = some c → p c = false) : l.dropWhile p = l := by
  cases l with
  | nil => rfl
  | cons a t =>
    rw [List.dropWhile_cons, if_neg]
    rw [h a rfl]
    exact Bool.false_ne_true

theorem dropWhile_getLastq (p : Char → Bool) (l : List Char)
    (h : l.dropWhile p ≠ []) : (l.dropWhile p).getLast? = l.getLast? := by
  induction l with
  | nil => exact absurd rfl h
  | cons a t ih =>
    rw [List.dropWhile_cons]
    by_cases hp : p a = true
    · rw [if_pos hp]
      rw [List.dropWhile_cons, if_pos hp] at h
      rw [ih h]
      cases t with
      | nil => simp [List.dropWhile] at h
      | cons b rest => rw [List.getLast?_cons_cons]
    · rw [if_neg hp]

theorem rustTrim_ends (s : List Char) : nonWsEnds (rustTrim s) := by
  unfold rustTrim
  constructor
  · intro c hc
    rw [List.head?_reverse] at hc
    by_cases hBe : (s.dropWhile rustIsWhitespace).reverse.dropWhile rustIsWhitespace = []
    · rw [hBe] at hc
      cases hc
    · rw [dropWhile_getLastq _ _ hBe, List.getLast?_reverse] at hc
      exact dropWhile_headq_not _ _ _ hc
  · intro c hc
    rw [List.getLast?_reverse] at hc
    exact dropWhile_headq_not _ _ _ hc

theorem rustTrim_eq_self (s : List Char) (h : nonWsEnds s) : rustTrim s = s := by
  unfold rustTrim
  obtain ⟨h1, h2⟩ := h
  rw [dropWhile_eq_self_of _ s h1]
  rw [dropWhile_eq_self_of _ s.reverse (by
    intro c hc
    rw [List.head?_reverse] at hc
    exact h2 c hc)]
  exact List.reverse_reverse s

theorem collapseRuns_ends (s : List Char) (h : nonWsEnds s) :
    nonWsEnds (collapseRuns s) := by
  obtain ⟨h1, h2⟩ := h
  constructor
  · intro c hc
    rw [collapseRuns_headq_eq] at hc
    exact h1 c hc
  · intro c hc
    rw [collapseRuns_getLastq] at hc
    exact h2 c hc

/-! ## The sanitizer pipelines: fixpoint and refinement lemmas -/

theorem foldl_dash_fix (L : List Char) (h : '-' ∉ L) :
    L.foldl (fun x o => if x = o then '-' else x) '-' = '-' := by
  induction L with
  | nil => rfl
  | cons o L ih =>
    rw [List.foldl_cons, ite_self]
    exact ih (fun hm => h (List.mem_cons_of_mem o hm))

theorem foldl_point (L : List Char) (h : '-' ∉ L) (c : Char) :
    L.foldl (fun x o => if x = o then '-' else x) c = if c ∈ L then '-' else c := by
  induction L with
  | nil => simp
  | cons o L ih =>
    rw [List.foldl_cons]
    by_cases hc : c = o
    · rw [if_pos hc, foldl_dash_fix L (fun hm => h (List.mem_cons_of_mem o hm)),
        if_pos (List.mem_cons.mpr (Or.inl hc))]
    · rw [if_neg hc, ih (fun hm => h (List.mem_cons_of_mem o hm))]
      by_cases hcl : c ∈ L
      · rw [if_pos hcl, if_pos (List.mem_cons_of_mem o hcl)]
      · rw [if_neg hcl, if_neg (fun hm => (List.mem_cons.mp hm).elim hc hcl)]

theorem foldRepl_eq_map (L : List Char) (s : List Char) :
    foldRepl L s =
      s.map (fun c => L.foldl (fun x o => if x = o then '-' else x) c) := by
  induction L generalizing s with
  | nil =>
    have h0 : ∀ t : List Char,
        List.map (fun c => List.foldl (fun x o => if x = o then '-' else x) c []) t = t := by
      intro t
      induction t with
      | nil => rfl
      | cons c t iht =>
        rw [List.map_cons, iht]
        rfl
    rw [h0 s]
    rfl

  | cons o L ih =>
    rw [foldRepl_cons, ih]
    unfold replaceChar
    rw [List.map_map]
    rfl

theorem replaceInvalid_eq_map (s : List Char) :
    replaceInvalid s = s.map (fun c => if c ∈ invalidChars then '-' else c) := by
  rw [replaceInvalid_eq_foldRepl, foldRepl_eq_map]
  exact List.map_congr_left (fun c _ => foldl_point invalidChars (by decide) c)

theorem sanitize_doc_eq_spec (s : List Char) :
    sanitize_filename_doc s = spec_sanitize_doc s := by
  simp only [sanitize_filename_doc, spec_sanitize_doc]
  rw [replaceInvalid_eq_map, collapseDashes_eq_runs]

theorem sanitize_doc_no_trunc (x : List Char)
    (h : ¬ 100 < utf8Len (collapseDashes (replaceInvalid (rustTrim x)))) :
    sanitize_filename_doc x =
      some (if (collapseDashes (replaceInvalid (rustTrim x))).isEmpty then untitledName
        else collapseDashes (replaceInvalid (rustTrim x))) := by
  simp only [sanitize_filename_doc]
  rw [if_neg h]

theorem sanitize_path_no_trunc (x : List Char)
    (h : ¬ 100 < utf8Len (replaceChar ' ' '_' (collapseDashes (replaceInvalid (rustTrim x))))) :
    sanitize_filename_path x =
      some (if (replaceChar ' ' '_' (collapseDashes (replaceInvalid (rustTrim x)))).isEmpty
        then untitledName
        else replaceChar ' ' '_' (collapseDashes (replaceInvalid (rustTrim x)))) := by
  simp only [sanitize_filename_path]
  rw [if_neg h]

theorem sanitize_doc_fix (r : List Char) (hends : nonWsEnds r)
    (hinv : ∀ o ∈ invalidChars, o ∉ r) (hdash : containsDashPair r = false)
    (hlen : utf8Len r ≤ 100) (hne : r ≠ []) :
    sanitize_filename_doc r = some r := by
  have e1 : rustTrim r = r := rustTrim_eq_self r hends
  have e2 : replaceInvalid r = r := by
    rw [replaceInvalid_eq_foldRepl]
    exact foldRepl_eq_self _ _ hinv
  have e3 : collapseDashes r = r := by
    rw [collapseDashes_eq_runs]
    exact collapseRuns_of_noDashPair r hdash
  have h4 : ¬ 100 < utf8Len (collapseDashes (replaceInvalid (rustTrim r))) := by
    rw [e1, e2, e3]
    omega
  rw [sanitize_doc_no_trunc r h4, e1, e2, e3]
  rw [if_neg (by simpa [List.isEmpty_iff] using hne)]

theorem sanitize_path_fix (r : List Char) (hends : nonWsEnds r)
    (hinv : ∀ o ∈ invalidChars, o ∉ r) (hdash : containsDashPair r = false)
    (hsp : ' ' ∉ r) (hlen : utf8Len r ≤ 100) (hne : r ≠ []) :
    sanitize_filename_path r = some r := by
  have e1 : rustTrim r = r := rustTrim_eq_self r hends
  have e2 : replaceInvalid r = r := by
    rw [replaceInvalid_eq_foldRepl]
    exact foldRepl_eq_self _ _ hinv
  have e3 : collapseDashes r = r := by
    rw [collapseDashes_eq_runs]
    exact collapseRuns_of_noDashPair r hdash
  have e4 : replaceChar ' ' '_' r = r :=
    replaceChar_eq_self _ _ _ (fun c hc he => hsp (he ▸ hc))
  have h4 : ¬ 100 < utf8Len (replaceChar ' ' '_' (collapseDashes (replaceInvalid (rustTrim r)))) := by
    rw [e1, e2, e3, e4]
    omega
  rw [sanitize_path_no_trunc r h4, e1, e2, e3, e4]
  rw [if_neg (by simpa [List.isEmpty_iff] using hne)]

theorem pipeline_props (x : List Char) :
    nonWsEnds (collapseDashes (replaceInvalid (rustTrim x))) ∧
    (∀ o ∈ invalidChars, o ∉ collapseDashes (replaceInvalid (rustTrim x))) ∧
    containsDashPair (collapseDashes (replaceInvalid (rustTrim x))) = false ∧
    utf8Len (collapseDashes (replaceInvalid (rustTrim x))) ≤ utf8Len (rustTrim x) := by
  rw [collapseDashes_eq_runs, replaceInvalid_eq_foldRepl]
  refine ⟨?_, ?_, ?_, ?_⟩
  · exact collapseRuns_ends _ (foldRepl_ends _ _ (rustTrim_ends x))
  · intro o ho hmem
    have h1 : o ∈ foldRepl invalidChars (rustTrim x) := collapseRuns_mem o _ hmem
    have hne : o ≠ '-' := by
      intro he
      rw [he] at ho
      exact absurd ho (by decide)
    exact foldRepl_not_mem invalidChars o hne _ ho h1
  · exact collapseRuns_noDashPair _
  · calc utf8Len (collapseRuns (foldRepl invalidChars (rustTrim x)))
        ≤ utf8Len (foldRepl invalidChars (rustTrim x)) := collapseRuns_utf8Len_le _
      _ = utf8Len (rustTrim x) := foldRepl_utf8Len _ _ (by decide)

theorem sanitize_doc_total_of_small (x : List Char)
    (h : utf8Len (rustTrim x) ≤ 100) :
    (sanitize_filename_doc x).bind sanitize_filename_doc = sanitize_filename_doc x := by
  obtain ⟨hends, hinv, hdash, hlen⟩ := pipeline_props x
  have hsmall : ¬ 100 < utf8Len (collapseDashes (replaceInvalid (rustTrim x))) := by omega
  rw [sanitize_doc_no_trunc x hsmall]
  by_cases hb : (collapseDashes (replaceInvalid (rustTrim x))).isEmpty
  · rw [if_pos hb]
    have : sanitize_filename_doc untitledName = some untitledName := by decide
    rw [Option.some_bind, this]
  · rw [if_neg hb]
    rw [Option.some_bind]
    exact sanitize_doc_fix _ hends hinv hdash (by omega)
      (fun he => hb (by rw [he]; rfl))

theorem sanitize_path_total_of_small (x : List Char)
    (h : utf8Len (rustTrim x) ≤ 100) :
    (sanitize_filename_path x).bind sanitize_filename_path = sanitize_filename_path x := by
  obtain ⟨hends, hinv, hdash, hlen⟩ := pipeline_props x
  have hu : utf8Len (replaceChar ' ' '_' (collapseDashes (replaceInvalid (rustTrim x)))) =
      utf8Len (collapseDashes (replaceInvalid (rustTrim x))) :=
    replaceChar_utf8Len _ _ _ (by decide)
  have hsmall : ¬ 100 < utf8Len (replaceChar ' ' '_' (collapseDashes (replaceInvalid (rustTrim x)))) := by
    omega
  rw [sanitize_path_no_trunc x hsmall]
  by_cases hb : (replaceChar ' ' '_' (collapseDashes (replaceInvalid (rustTrim x)))).isEmpty
  · rw [if_pos hb]
    have : sanitize_filename_path untitledName = some untitledName := by decide
    rw [Option.some_bind, this]
  · rw [if_neg hb]
    rw [Option.some_bind]
    refine sanitize_path_fix _ ?_ ?_ ?_ ?_ ?_ ?_
    · exact replaceChar_ends ' ' '_' _ (by decide) hends
    · intro o ho hmem
      rcases replaceChar_mem _ _ _ _ hmem with h1 | h2
      · rw [h1] at ho
        exact absurd ho (by decide)
      · exact hinv o ho h2.1
    · rw [replaceChar_dashPair _ _ _ (by decide) (by decide)]
      exact hdash
    · exact replaceChar_not_mem ' ' '_' _ (by decide)
    · omega
    · intro he
      rw [he] at hb
      exact hb rfl

/-! ## Claim theorems for the sanitizers -/

/-- C3 counterexample: the sanitizer used when materializing a document
(`DocumentService::sanitize_filename`) does not replace spaces by
underscores: the title "My Notes" sanitizes to "My Notes", not
"My_Notes", so the materialized file is `My Notes.md`. -/
theorem claim3_counterexample :
    sanitize_filename_doc ['M', 'y', ' ', 'N', 'o', 't', 'e', 's'] =
      some ['M', 'y', ' ', 'N', 'o', 't', 'e', 's'] ∧
    sanitize_filename_doc ['M', 'y', ' ', 'N', 'o', 't', 'e', 's'] ≠
      some ['M', 'y', '_', 'N', 'o', 't', 'e', 's'] := by
  constructor
  · decide
  · decide

/-- C3 amended: the materializing sanitizer computes trim, then replaces
each of the invalid characters by `-`, collapses runs of `-` to one,
truncates to 100 bytes (modelled as `none` on a non-boundary cut) and
defaults to `untitled` — with no space-replacement step, so "My Notes"
yields the file name "My Notes.md". -/
theorem claim3_theorem :
    (∀ s, sanitize_filename_doc s = spec_sanitize_doc s) ∧
    sanitize_filename_doc ['M', 'y', ' ', 'N', 'o', 't', 'e', 's'] =
      some ['M', 'y', ' ', 'N', 'o', 't', 'e', 's'] :=
  ⟨sanitize_doc_eq_spec, by decide⟩

set_option maxRecDepth 4000 in
/-- C7 counterexample: neither sanitizer is idempotent.  For the input of
99 `a`s followed by a tab and two `b`s (102 bytes), truncation to 100
bytes leaves a trailing tab, which the second pass trims away. -/
theorem claim7_counterexample :
    ((sanitize_filename_doc (List.replicate 99 'a' ++ ['\t', 'b', 'b'])).bind
        sanitize_filename_doc ≠
      sanitize_filename_doc (List.replicate 99 'a' ++ ['\t', 'b', 'b'])) ∧
    ((sanitize_filename_path (List.replicate 99 'a' ++ ['\t', 'b', 'b'])).bind
        sanitize_filename_path ≠
      sanitize_filename_path (List.replicate 99 'a' ++ ['\t', 'b', 'b'])) := by
  constructor
  · decide
  · decide

/-- C7 amended: both sanitizers are idempotent on every input whose
trimmed form fits in 100 UTF-8 bytes, so that the truncation step does not
fire; truncation can expose trailing whitespace that only the second pass
trims, which is the sole failure mode. -/
theorem claim7_theorem (x : List Char) (h : utf8Len (rustTrim x) ≤ 100) :
    ((sanitize_filename_doc x).bind sanitize_filename_doc =
      sanitize_filename_doc x) ∧
    ((sanitize_filename_path x).bind sanitize_filename_path =
      sanitize_filename_path x) :=
  ⟨sanitize_doc_total_of_small x h, sanitize_path_total_of_small x h⟩

/-- C7 witness: the amended idempotence at the concrete title "My Notes". -/
theorem claim7_witness :
    utf8Len (rustTrim ['M', 'y', ' ', 'N', 'o', 't', 'e', 's']) ≤ 100 ∧
    (((sanitize_filename_doc ['M', 'y', ' ', 'N', 'o', 't', 'e', 's']).bind
        sanitize_filename_doc =
      sanitize_filename_doc ['M', 'y', ' ', 'N', 'o', 't', 'e', 's']) ∧
     ((sanitize_filename_path ['M', 'y', ' ', 'N', 'o', 't', 'e', 's']).bind
        sanitize_filename_path =
      sanitize_filename_path ['M', 'y', ' ', 'N', 'o', 't', 'e', 's'])) :=
  ⟨by decide, claim7_theorem ['M', 'y', ' ', 'N', 'o', 't', 'e', 's'] (by decide)⟩

/-- C10: `sanitize_filename` is not total.  On the title made of 34 copies
of `あ` (three UTF-8 bytes each, 102 bytes total) byte 100 falls inside a
character, so `String::truncate(100)` panics in both implementations; the
embedding returns `none` exactly in that panic case. -/
theorem claim10_theorem :
    sanitize_filename_doc (List.replicate 34 'あ') = none ∧
    sanitize_filename_path (List.replicate 34 'あ') = none := by
  constructor
  · decide
  · decide

/-! ## Connection tracker lemmas -/

theorem mem_joinList {α : Type} [DecidableEq α] (l : List α) (a x : α) :
    x ∈ joinList l a ↔ x ∈ l ∨ x = a := by
  unfold joinList
  by_cases h : l.contains a = true
  · rw [if_pos h]
    have ha : a ∈ l := List.elem_iff.mp h
    constructor
    · exact Or.inl
    · rintro (h1 | h1)
      · exact h1
      · exact h1 ▸ ha
  · rw [if_neg h]
    rw [List.mem_append, List.mem_singleton]

theorem nodup_joinList {α : Type} [DecidableEq α] (l : List α) (a : α)
    (h : l.Nodup) : (joinList l a).Nodup := by
  unfold joinList
  by_cases hc : l.contains a = true
  · rw [if_pos hc]
    exact h
  · rw [if_neg hc]
    rw [List.nodup_append]
    refine ⟨h, List.nodup_singleton a, ?_⟩
    intro x hx hxa
    rw [List.mem_singleton] at hxa
    subst hxa
    exact hc (List.elem_iff.mpr hx)

theorem count_joinList_self {α : Type} [DecidableEq α] (l : List α) (a : α)
    (h : a ∉ l) : (joinList l a).count a = 1 := by
  unfold joinList
  have hc : l.contains a ≠ true := fun hc => h (List.elem_iff.mp hc)
  rw [if_neg hc, List.count_append, List.count_singleton,
    if_pos (beq_self_eq_true a), List.count_eq_zero.mpr h]

theorem join_sdL (t : ConnectionTracker) (s : String) (d : Nat) (k : String) :
    ((t.join_document s d).socket_documents k).getD [] =
      if k = s then joinList ((t.socket_documents s).getD []) d
      else (t.socket_documents k).getD [] := by
  simp only [ConnectionTracker.join_document]
  by_cases h : k = s
  · rw [if_pos h, if_pos h]
    rfl
  · rw [if_neg h, if_neg h]

theorem join_dsL (t : ConnectionTracker) (s : String) (d : Nat) (k : Nat) :
    ((t.join_document s d).document_sockets k).getD [] =
      if k = d then joinList ((t.document_sockets d).getD []) s
      else (t.document_sockets k).getD [] := by
  simp only [ConnectionTracker.join_document]
  by_cases h : k = d
  · rw [if_pos h, if_pos h]
    rfl
  · rw [if_neg h, if_neg h]

theorem leave_sdL (t : ConnectionTracker) (s : String) (d : Nat) (k : String) :
    ((t.leave_document s d).socket_documents k).getD [] =
      if k = s then ((t.socket_documents s).getD []).filter (fun id => id != d)
      else (t.socket_documents k).getD [] := by
  simp only [ConnectionTracker.leave_document]
  by_cases h : k = s
  · rw [if_pos h, if_pos h]
    cases t.socket_documents s with
    | none => rfl
    | some docs => rfl
  · rw [if_neg h, if_neg h]

theorem leave_dsL (t : ConnectionTracker) (s : String) (d : Nat) (k : Nat) :
    ((t.leave_document s d).document_sockets k).getD [] =
      if k = d then ((t.document_sockets d).getD []).filter (fun id => id != s)
      else (t.document_sockets k).getD [] := by
  simp only [ConnectionTracker.leave_document]
  by_cases h : k = d
  · rw [if_pos h, if_pos h]
    cases t.document_sockets d with
    | none => rfl
    | some sockets => rfl
  · rw [if_neg h, if_neg h]

theorem trackerInv_empty : TrackerInv ConnectionTracker.empty := by
  refine ⟨fun s d => ?_, fun s => ?_, fun d => ?_⟩
  · constructor
    · intro h
      cases h
    · intro h
      cases h
  · exact List.nodup_nil
  · exact List.nodup_nil

theorem trackerInv_join (t : ConnectionTracker) (s : String) (d : Nat)
    (h : TrackerInv t) : TrackerInv (t.join_document s d) := by
  obtain ⟨hm, hn1, hn2⟩ := h
  refine ⟨fun s' d' => ?_, fun s' => ?_, fun d' => ?_⟩
  · rw [join_sdL, join_dsL]
    by_cases hs : s' = s
    · by_cases hd : d' = d
      · rw [if_pos hs, if_pos hd, mem_joinList, mem_joinList]
        subst hs; subst hd
        rw [hm s' d']
        tauto
      · rw [if_pos hs, if_neg hd, mem_joinList]
        subst hs
        rw [hm s' d']
        constructor
        · rintro (h1 | h1)
          · exact h1
          · exact absurd h1 hd
        · exact Or.inl
    · by_cases hd : d' = d
      · rw [if_neg hs, if_pos hd, mem_joinList]
        subst hd
        rw [hm s' d']
        constructor
        · exact Or.inl
        · rintro (h1 | h1)
          · exact h1
          · exact absurd h1 hs
      · rw [if_neg hs, if_neg hd]
        exact hm s' d'
  · rw [join_sdL]
    by_cases hs : s' = s
    · rw [if_pos hs]
      exact nodup_joinList _ _ (hn1 s)
    · rw [if_neg hs]
      exact hn1 s'
  · rw [join_dsL]
    by_cases hd : d' = d
    · rw [if_pos hd]
      exact nodup_joinList _ _ (hn2 d)
    · rw [if_neg hd]
      exact hn2 d'

theorem trackerInv_leave (t : ConnectionTracker) (s : String) (d : Nat)
    (h : TrackerInv t) : TrackerInv (t.leave_document s d) := by
  obtain ⟨hm, hn1, hn2⟩ := h
  refine ⟨fun s' d' => ?_, fun s' => ?_, fun d' => ?_⟩
  · rw [leave_sdL, leave_dsL]
    by_cases hs : s' = s
    · by_cases hd : d' = d
      · rw [if_pos hs, if_pos hd, List.mem_filter, List.mem_filter]
        subst hs; subst hd
        rw [hm s' d']
        constructor
        · rintro ⟨h1, h2⟩
          exact absurd rfl (bne_iff_ne.mp h2)
        · rintro ⟨h1, h2⟩
          exact absurd rfl (bne_iff_ne.mp h2)
      · rw [if_pos hs, if_neg hd, List.mem_filter]
        subst hs
        rw [hm s' d']
        constructor
        · rintro ⟨h1, _⟩
          exact h1
        · intro h1
          exact ⟨h1, bne_iff_ne.mpr hd⟩
    · by_cases hd : d' = d
      · rw [if_neg hs, if_pos hd, List.mem_filter]
        subst hd
        rw [hm s' d']
        constructor
        · intro h1
          exact ⟨h1, bne_iff_ne.mpr hs⟩
        · rintro ⟨h1, _⟩
          exact h1
      · rw [if_neg hs, if_neg hd]
        exact hm s' d'
  · rw [leave_sdL]
    by_cases hs : s' = s
    · rw [if_pos hs]
      exact List.Nodup.filter _ (hn1 s)
    · rw [if_neg hs]
      exact hn1 s'
  · rw [leave_dsL]
    by_cases hd : d' = d
    · rw [if_pos hd]
      exact List.Nodup.filter _ (hn2 d)
    · rw [if_neg hd]
      exact hn2 d'

theorem trackerInv_fold_leave (L : List Nat) (s : String) :
    ∀ t : ConnectionTracker, TrackerInv t →
      TrackerInv (L.foldl (fun acc d => acc.leave_document s d) t) := by
  induction L with
  | nil => exact fun t h => h
  | cons d L ih =>
    intro t h
    exact ih _ (trackerInv_leave t s d h)

theorem fold_leave_sdL_other (L : List Nat) (s : String) (k : String) (hk : k ≠ s) :
    ∀ t : ConnectionTracker,
      ((L.foldl (fun acc d => acc.leave_document s d) t).socket_documents k) =
        t.socket_documents k := by
  induction L with
  | nil => exact fun t => rfl
  | cons d L ih =>
    intro t
    rw [List.foldl_cons, ih]
    simp only [ConnectionTracker.leave_document]
    rw [if_neg hk]

theorem fold_leave_mem (L : List Nat) (s : String) (x : Nat) :
    ∀ t : ConnectionTracker,
      x ∈ (((L.foldl (fun acc d => acc.leave_document s d) t).socket_documents s).getD []) →
      x ∈ ((t.socket_documents s).getD []) ∧ x ∉ L := by
  induction L with
  | nil =>
    intro t h
    exact ⟨h, fun hh => by cases hh⟩
  | cons d L ih =>
    intro t h
    rw [List.foldl_cons] at h
    obtain ⟨h1, h2⟩ := ih _ h
    rw [leave_sdL, if_pos rfl, List.mem_filter] at h1
    refine ⟨h1.1, ?_⟩
    intro hmem
    rcases List.mem_cons.mp hmem with he | he
    · exact absurd he (bne_iff_ne.mp h1.2)
    · exact h2 he

theorem trackerInv_remove (t : ConnectionTracker) (s : String)
    (h : TrackerInv t) : TrackerInv (t.remove_socket s).1 := by
  have hfold := trackerInv_fold_leave (t.get_socket_documents s) s t h
  set t1 := (t.get_socket_documents s).foldl
    (fun acc d => acc.leave_document s d) t with ht1
  obtain ⟨hm, hn1, hn2⟩ := hfold
  have hempty : ∀ d, d ∉ ((t1.socket_documents s).getD []) := by
    intro d hd
    obtain ⟨h1, h2⟩ := fold_leave_mem (t.get_socket_documents s) s d t hd
    exact h2 h1
  refine ⟨fun s' d' => ?_, fun s' => ?_, fun d' => ?_⟩
  · show d' ∈ ((if s' = s then none else t1.socket_documents s').getD []) ↔ _
    by_cases hs : s' = s
    · rw [if_pos hs]
      subst hs
      constructor
      · intro hh
        cases hh
      · intro hh
        exact absurd ((hm s' d').mpr hh) (hempty d')
    · rw [if_neg hs]
      exact hm s' d'
  · show ((if s' = s then none else t1.socket_documents s').getD []).Nodup
    by_cases hs : s' = s
    · rw [if_pos hs]
      exact List.nodup_nil
    · rw [if_neg hs]
      exact hn1 s'
  · exact hn2 d'

theorem trackerInv_applyOp (t : ConnectionTracker) (op : TrackerOp)
    (h : TrackerInv t) : TrackerInv (applyTrackerOp t op) := by
  cases op with
  | join s d => exact trackerInv_join t s d h
  | leave s d => exact trackerInv_leave t s d h
  | disconnect s => exact trackerInv_remove t s h

theorem trackerInv_applyOps_from (ops : List TrackerOp) :
    ∀ t : ConnectionTracker, TrackerInv t → TrackerInv (ops.foldl applyTrackerOp t) := by
  induction ops with
  | nil => exact fun t h => h
  | cons op ops ih =>
    intro t h
    exact ih _ (trackerInv_applyOp t op h)

theorem is_document_empty_iff (t : ConnectionTracker) (d : Nat) :
    t.is_document_empty d = true ↔ ((t.document_sockets d).getD []) = [] := by
  unfold ConnectionTracker.is_document_empty
  cases t.document_sockets d with
  | none =>
    constructor
    · intro _
      rfl
    · intro _
      rfl
  | some sockets =>
    show sockets.isEmpty = true ↔ sockets = []
    exact List.isEmpty_iff

theorem is_socket_in_document_iff (t : ConnectionTracker) (s : String) (d : Nat) :
    t.is_socket_in_document s d = true ↔ d ∈ ((t.socket_documents s).getD []) := by
  unfold ConnectionTracker.is_socket_in_document
  cases t.socket_documents s with
  | none =>
    constructor
    · intro h
      cases h
    · intro h
      cases h
  | some docs =>
    show docs.contains d = true ↔ d ∈ docs
    exact List.elem_iff

theorem is_in_false_not_mem (t : ConnectionTracker) (s : String) (d : Nat)
    (h : t.is_socket_in_document s d = false) :
    d ∉ ((t.socket_documents s).getD []) := by
  intro hmem
  have h2 := (is_socket_in_document_iff t s d).mpr hmem
  rw [h] at h2
  cases h2

theorem join_is_in (t : ConnectionTracker) (s : String) (d : Nat) :
    (t.join_document s d).is_socket_in_document s d = true := by
  refine (is_socket_in_document_iff _ s d).mpr ?_
  rw [join_sdL, if_pos rfl]
  exact (mem_joinList _ _ _).mpr (Or.inr rfl)

/-- C9: starting from the empty tracker, after any finite sequence of
join, leave and disconnect operations, a document is in a socket's list
exactly when the socket is in the document's list, the lists are
duplicate-free, and `is_document_empty` answers true exactly when no
socket references the document. -/
theorem claim9_theorem (ops : List TrackerOp) :
    (∀ s d, d ∈ (((applyTrackerOps ops).socket_documents s).getD []) ↔
      s ∈ (((applyTrackerOps ops).document_sockets d).getD [])) ∧
    (∀ s, (((applyTrackerOps ops).socket_documents s).getD []).Nodup) ∧
    (∀ d, (((applyTrackerOps ops).document_sockets d).getD []).Nodup) ∧
    (∀ d, (applyTrackerOps ops).is_document_empty d = true ↔
      ∀ s, d ∉ (((applyTrackerOps ops).socket_documents s).getD [])) := by
  have hinv : TrackerInv (applyTrackerOps ops) :=
    trackerInv_applyOps_from ops ConnectionTracker.empty trackerInv_empty
  obtain ⟨hm, hn1, hn2⟩ := hinv
  refine ⟨hm, hn1, hn2, fun d => ?_⟩
  rw [is_document_empty_iff]
  constructor
  · intro he s hd
    have hmem := (hm s d).mp hd
    rw [he] at hmem
    cases hmem
  · intro h
    rw [List.eq_nil_iff_forall_not_mem]
    intro s hs
    exact h s ((hm s d).mpr hs)

/-- C8: when a socket that is not yet tracked for a document is allowed
to join twice, `joined-document` is emitted exactly once across both
calls, the second call changes nothing, and the tracker holds exactly one
entry for the pair in each direction. -/
theorem claim8_theorem (t : ConnectionTracker) (s : String) (d : Nat) (b : Bool)
    (h1 : t.is_socket_in_document s d = false)
    (h2 : s ∉ ((t.document_sockets d).getD [])) :
    ((join_document_handler t s d (Except.ok ⟨true, b⟩)).2 ++
      (join_document_handler (join_document_handler t s d (Except.ok ⟨true, b⟩)).1 s d
        (Except.ok ⟨true, b⟩)).2).countP
        (fun ev => ev == SEvent.joinedDocument d) = 1 ∧
    (join_document_handler (join_document_handler t s d (Except.ok ⟨true, b⟩)).1 s d
      (Except.ok ⟨true, b⟩)).1 = (join_document_handler t s d (Except.ok ⟨true, b⟩)).1 ∧
    (((join_document_handler t s d (Except.ok ⟨true, b⟩)).1.socket_documents s).getD []).count d = 1 ∧
    (((join_document_handler t s d (Except.ok ⟨true, b⟩)).1.document_sockets d).getD []).count s = 1 := by
  have hd_not : d ∉ ((t.socket_documents s).getD []) := is_in_false_not_mem t s d h1
  have e1 : join_document_handler t s d (Except.ok ⟨true, b⟩) =
      (t.join_document s d,
        [SEvent.joinedDocument d,
         SEvent.userCountUpdateRoom d ((t.join_document s d).get_document_sockets d).length,
         SEvent.userCountUpdateSelf d ((t.join_document s d).get_document_sockets d).length,
         SEvent.userJoined d]) := by
    simp only [join_document_handler, Bool.not_true, h1]
    rfl
  have e2 : join_document_handler (t.join_document s d) s d (Except.ok ⟨true, b⟩) =
      (t.join_document s d, []) := by
    simp only [join_document_handler, Bool.not_true, join_is_in t s d]
    rfl
  rw [e1]
  dsimp only
  rw [e2]
  dsimp only
  refine ⟨?_, rfl, ?_, ?_⟩
  · simp [List.countP_cons, beq_self_eq_true]
  · rw [join_sdL, if_pos rfl]
    exact count_joinList_self _ _ hd_not
  · rw [join_dsL, if_pos rfl]
    exact count_joinList_self _ _ h2

/-- C8 witness: the double join at the empty tracker with socket `"s1"`
and document `1`. -/
theorem claim8_witness :
    ConnectionTracker.empty.is_socket_in_document "s1" 1 = false ∧
    "s1" ∉ ((ConnectionTracker.empty.document_sockets 1).getD []) ∧
    (((join_document_handler ConnectionTracker.empty "s1" 1 (Except.ok ⟨true, false⟩)).2 ++
      (join_document_handler (join_document_handler ConnectionTracker.empty "s1" 1
          (Except.ok ⟨true, false⟩)).1 "s1" 1 (Except.ok ⟨true, false⟩)).2).countP
        (fun ev => ev == SEvent.joinedDocument 1) = 1 ∧
    (join_document_handler (join_document_handler ConnectionTracker.empty "s1" 1
        (Except.ok ⟨true, false⟩)).1 "s1" 1 (Except.ok ⟨true, false⟩)).1 =
      (join_document_handler ConnectionTracker.empty "s1" 1 (Except.ok ⟨true, false⟩)).1 ∧
    (((join_document_handler ConnectionTracker.empty "s1" 1
        (Except.ok ⟨true, false⟩)).1.socket_documents "s1").getD []).count 1 = 1 ∧
    (((join_document_handler ConnectionTracker.empty "s1" 1
        (Except.ok ⟨true, false⟩)).1.document_sockets 1).getD []).count "s1" = 1) :=
  ⟨rfl, by decide,
    claim8_theorem ConnectionTracker.empty "s1" 1 false rfl (by decide)⟩

/-! ## Claim theorems for the sync gateway throttle and update path -/

/-- C4 counterexample: four updates at time 0 of byte sizes 101, 101,
101, 1.  Each of the first three triggers by size, yet after the single
first trigger the counter is 1, not 0 (no reset), and the fourth update
triggers by count although it is ≤ 100 bytes, 0 s have elapsed, and it is
the only update since the save triggered by the third. -/
theorem claim4_counterexample :
    (runThrottle ⟨0, none⟩ [(0, 101), (0, 101), (0, 101), (0, 1)]).2 =
      [true, true, true, true] ∧
    runThrottle ⟨0, none⟩ [(0, 101)] = (⟨1, some 0⟩, [true]) := by
  constructor
  · rfl
  · rfl

/-- C4 amended: a save is triggered iff the update exceeds 100 bytes, or
the counter — which counts updates since the last count-fired reset, not
since the last save — was already ≥ 3, or ≥ 10 s passed since the last
trigger; on a trigger the timer is always reset to now, but the counter
is reset to 0 only when the count condition itself fired (otherwise it
keeps its incremented value). -/
theorem claim4_theorem (st : SaveState) (now len : Nat) :
    updateThrottle st now len =
      if 10 ≤ now - st.lastSave.getD now ∨ 3 ≤ st.counter ∨ 100 < len then
        (true, ⟨if 3 ≤ st.counter then 0 else (st.counter + 1) % 4294967296,
          some now⟩)
      else (false, ⟨(st.counter + 1) % 4294967296, some (st.lastSave.getD now)⟩) := by
  simp only [updateThrottle]
  have hc : ((decide (10 ≤ now - st.lastSave.getD now) || decide (3 ≤ st.counter) ||
      decide (100 < len)) = true) ↔
      (10 ≤ now - st.lastSave.getD now ∨ 3 ≤ st.counter ∨ 100 < len) := by
    simp [or_assoc]
  have hc2 : ((decide (3 ≤ st.counter)) = true) ↔ 3 ≤ st.counter := decide_eq_true_iff
  by_cases h : 10 ≤ now - st.lastSave.getD now ∨ 3 ≤ st.counter ∨ 100 < len
  · rw [if_pos (hc.mpr h), if_pos h]
    by_cases h2 : 3 ≤ st.counter
    · rw [if_pos (hc2.mpr h2), if_pos h2]
    · rw [if_neg (fun hh => h2 (hc2.mp hh)), if_neg h2]
  · rw [if_neg (fun hh => h (hc.mp hh)), if_neg h]

/-- C5: when persisting an applied update fails, the handler still returns
success, the update stays applied to the in-memory replica, the room
broadcast has already happened (it precedes the persistence attempt), and
exactly one `sync-error` carrying the document id, error and message goes
to the originating socket; nothing else is emitted except possibly the
throttled save task. -/
theorem claim5_theorem (docState : List (List Nat)) (st : SaveState)
    (d : Nat) (u : List Nat) (now : Nat) (e : String) :
    ∃ rest,
      apply_and_broadcast_update docState st d u now (Except.ok ()) (Except.error e) =
        Except.ok (docState ++ [u], (updateThrottle st now u.length).2,
          UpdateEvent.broadcastUpdate d u ::
          UpdateEvent.syncError d "Failed to persist document changes"
            ("Update could not be saved: " ++ e) :: rest) ∧
      (rest = [] ∨ rest = [UpdateEvent.spawnSaveToFile d]) := by
  by_cases h : (updateThrottle st now u.length).1 = true
  · refine ⟨[UpdateEvent.spawnSaveToFile d], ?_, Or.inr rfl⟩
    simp only [apply_and_broadcast_update]
    rw [if_pos h]
    rfl
  · refine ⟨[], ?_, Or.inl rfl⟩
    simp only [apply_and_broadcast_update]
    rw [if_neg h]
    rfl

/-! ## Claim theorems for the permission guard -/

/-- C2 counterexample: user 20 is not the owner of document 1, holds an
explicit `view` grant (below the required `edit`), and presents the valid
unexpired `edit` share token `"k"` targeting document 1 — yet the guard
answers deny with `via_share = false`: the insufficient grant returns
early and step 4 is never reached. -/
theorem claim2_counterexample :
    permEnvC2.docs 1 = some ⟨10, "document"⟩ ∧
    permEnvC2.grants 1 20 = some Permission.view ∧
    Permission.view.has_permission Permission.edit = false ∧
    verify_share_token permEnvC2 "k" 1 = true ∧
    get_permission_for_share permEnvC2 1 "k" = some Permission.edit ∧
    Permission.edit.has_permission Permission.edit = true ∧
    check_resource_permission permEnvC2 1 (some 20) (some "k") Permission.edit none =
      Except.ok ⟨false, false⟩ := by
  refine ⟨by decide, by decide, by decide, by decide, by decide, by decide, rfl⟩

/-- C2 amended: whenever the user is not the owner and holds any explicit
grant on the resource (and the guard was invoked with no expected kind, or
with expected kind `document` matching the row), the guard answers from
that grant alone — `has_access = grant ≥ required`, `via_share = false` —
and the share token is never consulted, whatever token is presented. -/
theorem claim2_theorem (env : PermEnv) (rid uid : Nat) (tok : Option String)
    (required : Permission) (doc : DocumentRow) (g : Permission)
    (hdoc : env.docs rid = some doc)
    (howner : doc.owner_id ≠ uid)
    (hgrant : env.grants rid uid = some g) :
    check_resource_permission env rid (some uid) tok required none =
      Except.ok ⟨g.has_permission required, false⟩ ∧
    (doc.doc_type = "document" →
      check_resource_permission env rid (some uid) tok required (some "document") =
        Except.ok ⟨g.has_permission required, false⟩) := by
  have hog : ∀ et : Option String, (et = none ∨ et = some "document") →
      ownerOrGrant env rid (some uid) required et doc =
        some ⟨g.has_permission required, false⟩ := by
    intro et het
    simp only [ownerOrGrant]
    rw [if_neg howner, if_pos het, hgrant]
  constructor
  · simp only [check_resource_permission]
    rw [hdoc]
    dsimp only
    rw [hog none (Or.inl rfl)]
    rfl
  · intro htype
    simp only [check_resource_permission]
    rw [hdoc]
    dsimp only
    rw [if_pos htype]
    rw [hog (some "document") (Or.inr rfl)]
    rfl

/-- C2 witness: the amended statement at the concrete environment
`permEnvC2`, user 20, required `edit`, token `"k"`. -/
theorem claim2_witness :
    permEnvC2.docs 1 = some ⟨10, "document"⟩ ∧
    (10 : Nat) ≠ 20 ∧
    permEnvC2.grants 1 20 = some Permission.view ∧
    (check_resource_permission permEnvC2 1 (some 20) (some "k") Permission.edit none =
      Except.ok ⟨Permission.view.has_permission Permission.edit, false⟩ ∧
    ((⟨10, "document"⟩ : DocumentRow).doc_type = "document" →
      check_resource_permission permEnvC2 1 (some 20) (some "k") Permission.edit
          (some "document") =
        Except.ok ⟨Permission.view.has_permission Permission.edit, false⟩)) :=
  ⟨by decide, by decide, by decide,
    claim2_theorem permEnvC2 1 20 (some "k") Permission.edit ⟨10, "document"⟩
      Permission.view (by decide) (by decide) (by decide)⟩

/-! ## Claim theorem for the link parser -/

/-- C1: the parser's dedup-by-start-position fails to suppress the inner
wiki match of an embed or mention, because that match starts one byte
after the recorded `!`/`@` start.  The scenario-4 body parses to five
links — the expected reference, embed and mention plus a spurious
reference inside the embed and inside the mention — and the input of the
parser's own `test_parse_embed_links` (which asserts one link) parses to
an embed plus a spurious reference. -/
theorem claim1_theorem :
    parse_links scenario4Body =
      [⟨.title "My Notes".toList, .reference, none, 4, 16⟩,
       ⟨.title "Q1 Notes".toList, .embed, some "overview".toList, 21, 43⟩,
       ⟨.title "Q1 Notes".toList, .reference, some "overview".toList, 22, 43⟩,
       ⟨.title "Alice".toList, .mention, none, 44, 54⟩,
       ⟨.title "Alice".toList, .reference, none, 45, 54⟩] ∧
    ((parse_links scenario4Body).filter
      (fun l => l.link_type == LinkType.reference)).length = 3 ∧
    parse_links embedTestBody =
      [⟨.title "Embedded Document".toList, .embed, none, 11, 33⟩,
       ⟨.title "Embedded Document".toList, .reference, none, 12, 33⟩] := by
  refine ⟨by decide, by decide, by decide⟩

/-! ## Encryption lemmas: byte bounds and lengths -/

theorem xor_byte_lt (a b : Nat) (ha : a < 256) (hb : b < 256) : a ^^^ b < 256 := by
  have h8 : (256 : Nat) = 2 ^ 8 := by norm_num
  rw [h8] at *
  exact Nat.xor_lt_two_pow ha hb

theorem getD_default_or_mem {α : Type} (l : List α) (n : Nat) (d : α) :
    l.getD n d = d ∨ l.getD n d ∈ l := by
  unfold List.getD
  cases hg : l.get? n with
  | none => simp
  | some a => simp [List.get?_mem hg]

theorem zipXor_lt (a : List Nat) : ∀ (b : List Nat), (∀ x ∈ a, x < 256) →
    (∀ x ∈ b, x < 256) → ∀ x ∈ zipXor a b, x < 256 := by
  induction a with
  | nil =>
    intro b _ _ x hx
    cases hx
  | cons p a ih =>
    intro b ha hb x hx
    cases b with
    | nil => cases hx
    | cons q b =>
      rcases List.mem_cons.mp hx with h1 | h2
      · subst h1
        exact xor_byte_lt p q (ha p (List.mem_cons_self p a)) (hb q (List.mem_cons_self q b))
      · exact ih b (fun y hy => ha y (List.mem_cons_of_mem p hy))
          (fun y hy => hb y (List.mem_cons_of_mem q hy)) x h2

theorem sb_lt (b : Nat) : sb b < 256 :=
  Nat.mod_lt _ (by norm_num)

theorem subWord_lt (w : List Nat) : ∀ b ∈ subWord w, b < 256 := by
  intro b hb
  obtain ⟨c, _, hc⟩ := List.mem_map.mp hb
  rw [← hc]
  exact sb_lt c

theorem rotWord_mem (w : List Nat) (x : Nat) (h : x ∈ rotWord w) : x ∈ w := by
  unfold rotWord at h
  match w, h with
  | [a, b, c, d], h => simp at h ⊢; tauto
  | [], h => cases h
  | [a], h => exact h
  | [a, b], h => exact h
  | [a, b, c], h => exact h
  | a :: b :: c :: d :: e :: rest, h => exact h

theorem rconByte_lt (i : Nat) : rconByte i < 256 := by
  unfold rconByte
  rcases getD_default_or_mem [1, 2, 4, 8, 16, 32, 64] (i - 1) 0 with h | h
  · rw [h]
    norm_num
  · simp only [List.mem_cons, List.not_mem_nil, or_false] at h
    rcases h with h | h | h | h | h | h | h <;> omega

theorem nextWord_lt (ws : List (List Nat))
    (h : ∀ w ∈ ws, ∀ b ∈ w, b < 256) : ∀ b ∈ nextWord ws, b < 256 := by
  have hlast : ∀ b ∈ ws.getLast?.getD [], b < 256 := by
    cases hg : ws.getLast? with
    | none =>
      intro b hb
      cases hb
    | some w =>
      intro b hb
      exact h w (List.mem_of_mem_getLast? hg) b hb
  have hw8 : ∀ b ∈ ws.getD (ws.length - 8) [], b < 256 := by
    rcases getD_default_or_mem ws (ws.length - 8) [] with hh | hh
    · rw [hh]
      intro b hb
      cases hb
    · exact h _ hh
  unfold nextWord
  refine zipXor_lt _ _ hw8 ?_
  by_cases h0 : ws.length % 8 = 0
  · rw [if_pos h0]
    refine zipXor_lt _ _ (subWord_lt _) ?_
    intro x hx
    have hr := rconByte_lt (ws.length / 8)
    simp only [List.mem_cons, List.not_mem_nil, or_false] at hx
    rcases hx with h | h | h | h <;> omega
  · rw [if_neg h0]
    by_cases h4 : ws.length % 8 = 4
    · rw [if_pos h4]
      exact subWord_lt _
    · rw [if_neg h4]
      exact hlast

theorem schedFold_lt (L : List Nat) :
    ∀ ws : List (List Nat), (∀ w ∈ ws, ∀ b ∈ w, b < 256) →
      ∀ w ∈ L.foldl (fun ws _ => ws ++ [nextWord ws]) ws, ∀ b ∈ w, b < 256 := by
  induction L with
  | nil => exact fun ws h => h
  | cons x L ih =>
    intro ws h
    refine ih (ws ++ [nextWord ws]) ?_
    intro w hw
    rcases List.mem_append.mp hw with h1 | h1
    · exact h w h1
    · rw [List.mem_singleton] at h1
      subst h1
      exact nextWord_lt ws h

theorem keySchedule_lt (key : List Nat) (hkey : ∀ b ∈ key, b < 256) :
    ∀ w ∈ keySchedule key, ∀ b ∈ w, b < 256 := by
  unfold keySchedule
  refine schedFold_lt _ _ ?_
  intro w hw b hb
  obtain ⟨i, _, hi⟩ := List.mem_map.mp hw
  rw [← hi] at hb
  exact hkey b (List.mem_of_mem_drop (List.mem_of_mem_take hb))

theorem addRoundKey_lt (ws : List (List Nat)) (r : Nat) (s : List Nat)
    (hws : ∀ w ∈ ws, ∀ b ∈ w, b < 256) (hs : ∀ x ∈ s, x < 256) :
    ∀ b ∈ addRoundKey ws r s, b < 256 := by
  intro b hb
  obtain ⟨i, _, hi⟩ := List.mem_map.mp hb
  rw [← hi]
  refine xor_byte_lt _ _ ?_ ?_
  · rcases getD_default_or_mem s i 0 with h | h
    · rw [h]
      norm_num
    · exact hs _ h
  · rcases getD_default_or_mem (ws.getD (4 * r + i / 4) []) (i % 4) 0 with h | h
    · rw [h]
      norm_num
    · rcases getD_default_or_mem ws (4 * r + i / 4) [] with h2 | h2
      · rw [h2] at h
        cases h
      · exact hws _ h2 _ h
  
theorem shiftRows_lt (s : List Nat) (hs : ∀ x ∈ s, x < 256) :
    ∀ b ∈ shiftRows s, b < 256 := by
  intro b hb
  obtain ⟨i, _, hi⟩ := List.mem_map.mp hb
  rw [← hi]
  rcases getD_default_or_mem s ((i % 4) + 4 * (((i / 4) + (i % 4)) % 4)) 0 with h | h
  · rw [h]
    norm_num
  · exact hs _ h

theorem map_sb_lt (s : List Nat) : ∀ b ∈ s.map sb, b < 256 := by
  intro b hb
  obtain ⟨c, _, hc⟩ := List.mem_map.mp hb
  rw [← hc]
  exact sb_lt c

theorem aesEncryptBlock_lt (ws : List (List Nat)) (input : List Nat)
    (hws : ∀ w ∈ ws, ∀ b ∈ w, b < 256) :
    ∀ b ∈ aesEncryptBlock ws input, b < 256 := by
  unfold aesEncryptBlock
  exact addRoundKey_lt ws 14 _ hws (shiftRows_lt _ (map_sb_lt _))

theorem addRoundKey_length (ws : List (List Nat)) (r : Nat) (s : List Nat) :
    (addRoundKey ws r s).length = 16 := by
  unfold addRoundKey
  rw [List.length_map, List.length_range]

theorem aesEncryptBlock_length (ws : List (List Nat)) (input : List Nat) :
    (aesEncryptBlock ws input).length = 16 := by
  unfold aesEncryptBlock
  exact addRoundKey_length ws 14 _

theorem natToBytes_length (k : Nat) : ∀ v, (natToBytes k v).length = k := by
  induction k with
  | zero => intro v; rfl
  | succ k ih =>
    intro v
    rw [natToBytes, List.length_append, ih]
    rfl

theorem natToBytes_lt (k : Nat) : ∀ v, ∀ b ∈ natToBytes k v, b < 256 := by
  induction k with
  | zero =>
    intro v b hb
    cases hb
  | succ k ih =>
    intro v b hb
    rw [natToBytes] at hb
    rcases List.mem_append.mp hb with h | h
    · exact ih _ b h
    · rw [List.mem_singleton] at h
      rw [h]
      exact Nat.mod_lt _ (by norm_num)

theorem flatten16_length (L : List (List Nat)) (h : ∀ x ∈ L, x.length = 16) :
    L.flatten.length = 16 * L.length := by
  induction L with
  | nil => rfl
  | cons x L ih =>
    rw [List.flatten_cons, List.length_append, h x (List.mem_cons_self x L),
      ih (fun y hy => h y (List.mem_cons_of_mem x hy)), List.length_cons]
    ring

theorem keystream_length (ws : List (List Nat)) (iv : List Nat) (n : Nat) :
    (keystream ws iv n).length = n := by
  unfold keystream
  rw [List.length_take]
  have hfl : (((List.range ((n + 15) / 16)).map
      (fun i => aesEncryptBlock ws (natToBytes 16 (ctrAt (bytesToNat (iv ++ [0, 0, 0, 1])) (i + 1))))).flatten).length =
      16 * ((n + 15) / 16) := by
    rw [flatten16_length]
    · rw [List.length_map, List.length_range]
    · intro x hx
      obtain ⟨i, _, hi⟩ := List.mem_map.mp hx
      rw [← hi]
      exact aesEncryptBlock_length ws _
  rw [hfl]
  have : n ≤ 16 * ((n + 15) / 16) := by omega
  omega

theorem keystream_lt (ws : List (List Nat)) (iv : List Nat) (n : Nat)
    (hws : ∀ w ∈ ws, ∀ b ∈ w, b < 256) : ∀ b ∈ keystream ws iv n, b < 256 := by
  unfold keystream
  intro b hb
  have hb2 := List.mem_of_mem_take hb
  obtain ⟨blk, hblk, hbm⟩ := List.mem_flatten.mp hb2
  obtain ⟨i, _, hi⟩ := List.mem_map.mp hblk
  rw [← hi] at hbm
  exact aesEncryptBlock_lt ws _ hws b hbm

theorem zipXor_length (a b : List Nat) : (zipXor a b).length = min a.length b.length :=
  List.length_zipWith _ a b

theorem zipXor_cancel (a : List Nat) : ∀ b : List Nat, a.length ≤ b.length →
    zipXor (zipXor a b) b = a := by
  induction a with
  | nil =>
    intro b _
    rfl
  | cons p a ih =>
    intro b hlen
    cases b with
    | nil => simp at hlen
    | cons q b =>
      show (p ^^^ q ^^^ q) :: zipXor (zipXor a b) b = p :: a
      rw [Nat.xor_cancel_right, ih b (by simpa using hlen)]

/-! ## Base64 round-trip -/

theorem b64Char_index (n : Nat) (h : n < 64) : b64Index? (b64Char n) = some n := by
  revert h
  revert n
  decide

theorem b64Char_ne_pad (n : Nat) (h : n < 64) : b64Char n ≠ '=' := by
  revert h
  revert n
  decide

theorem base64_roundtrip (bs : List Nat) (h : ∀ b ∈ bs, b < 256) :
    base64Decode (base64Encode bs) = some bs := by
  induction bs using base64Encode.induct with
  | case1 a b c rest ih =>
    have ha : a < 256 := h a (by simp)
    have hb : b < 256 := h b (by simp)
    have hc : c < 256 := h c (by simp)
    have h1 : a / 4 < 64 := by omega
    have h2 : (a % 4) * 16 + b / 16 < 64 := by omega
    have h3 : (b % 16) * 4 + c / 64 < 64 := by omega
    have h4 : c % 64 < 64 := by omega
    rw [base64Encode]
    rw [base64Decode]
    rw [if_neg (fun hh => b64Char_ne_pad _ h3 hh.2.1)]
    rw [if_neg (fun hh => b64Char_ne_pad _ h4 hh.2)]
    rw [b64Char_index _ h1, b64Char_index _ h2, b64Char_index _ h3, b64Char_index _ h4]
    rw [Option.some_bind, Option.some_bind, Option.some_bind, Option.some_bind]
    rw [ih (fun x hx => h x (by simp [hx]))]
    rw [Option.map_some']
    refine congrArg some ?_
    have e1 : a / 4 * 4 + ((a % 4) * 16 + b / 16) / 16 = a := by omega
    have e2 : ((a % 4) * 16 + b / 16) % 16 * 16 + ((b % 16) * 4 + c / 64) / 4 = b := by
      omega
    have e3 : ((b % 16) * 4 + c / 64) % 4 * 64 + c % 64 = c := by omega
    rw [e1, e2, e3]
  | case2 a b =>
    have ha : a < 256 := h a (by simp)
    have hb : b < 256 := h b (by simp)
    have h1 : a / 4 < 64 := by omega
    have h2 : (a % 4) * 16 + b / 16 < 64 := by omega
    have h3 : (b % 16) * 4 < 64 := by omega
    rw [base64Encode]
    rw [base64Decode]
    rw [if_neg (fun hh => b64Char_ne_pad _ h3 hh.2.1)]
    rw [if_pos ⟨rfl, rfl⟩]
    rw [b64Char_index _ h1, b64Char_index _ h2, b64Char_index _ h3]
    rw [Option.some_bind, Option.some_bind, Option.some_bind]
    rw [if_pos (by omega : ((b % 16) * 4) % 4 = 0)]
    refine congrArg some ?_
    have e1 : a / 4 * 4 + ((a % 4) * 16 + b / 16) / 16 = a := by omega
    have e2 : ((a % 4) * 16 + b / 16) % 16 * 16 + ((b % 16) * 4) / 4 = b := by omega
    rw [e1, e2]
  | case3 a =>
    have ha : a < 256 := h a (by simp)
    have h1 : a / 4 < 64 := by omega
    have h2 : (a % 4) * 16 < 64 := by omega
    rw [base64Encode]
    rw [base64Decode]
    rw [if_pos ⟨rfl, rfl, rfl⟩]
    rw [b64Char_index _ h1, b64Char_index _ h2]
    rw [Option.some_bind, Option.some_bind]
    rw [if_pos (by omega : ((a % 4) * 16) % 16 = 0)]
    refine congrArg some ?_
    have e1 : a / 4 * 4 + ((a % 4) * 16) / 16 = a := by omega
    rw [e1]
  | case4 => rfl

/-! ## AES-GCM round-trip -/

theorem encryption_roundtrip_core (key nonce pt : List Nat)
    (hkey : ∀ b ∈ key, b < 256) (hn : nonce.length = 12)
    (hnb : ∀ b ∈ nonce, b < 256) (hpb : ∀ b ∈ pt, b < 256) :
    decryptService key (encryptService key nonce pt) = Except.ok pt := by
  have hws := keySchedule_lt key hkey
  have hkslt := keystream_lt (keySchedule key) nonce pt.length hws
  have hkslen := keystream_length (keySchedule key) nonce pt.length
  have hctlt : ∀ b ∈ zipXor pt (keystream (keySchedule key) nonce pt.length), b < 256 :=
    zipXor_lt pt _ hpb hkslt
  have hctlen : (zipXor pt (keystream (keySchedule key) nonce pt.length)).length =
      pt.length := by
    rw [zipXor_length, hkslen]
    omega
  have htaglt := natToBytes_lt 16
  have htaglen := natToBytes_length 16
  have hall : ∀ b ∈ nonce ++ (zipXor pt (keystream (keySchedule key) nonce pt.length) ++
      gcmTag (keySchedule key) nonce (zipXor pt (keystream (keySchedule key) nonce pt.length))),
      b < 256 := by
    intro b hb
    rcases List.mem_append.mp hb with h1 | h1
    · exact hnb b h1
    · rcases List.mem_append.mp h1 with h2 | h2
      · exact hctlt b h2
      · unfold gcmTag at h2
        exact htaglt _ b h2
  simp only [encryptService, decryptService]
  rw [base64_roundtrip _ hall]
  dsimp only
  have hlen : (nonce ++ (zipXor pt (keystream (keySchedule key) nonce pt.length) ++
      gcmTag (keySchedule key) nonce (zipXor pt (keystream (keySchedule key) nonce pt.length)))).length =
      12 + (pt.length + 16) := by
    rw [List.length_append, List.length_append, hn, hctlen]
    unfold gcmTag
    rw [htaglen]
  rw [if_neg (by rw [hlen]; omega)]
  have ht12 : (nonce ++ (zipXor pt (keystream (keySchedule key) nonce pt.length) ++
      gcmTag (keySchedule key) nonce (zipXor pt (keystream (keySchedule key) nonce pt.length)))).take 12 =
      nonce := by
    rw [← hn]
    exact List.take_left _ _
  have hd12 : (nonce ++ (zipXor pt (keystream (keySchedule key) nonce pt.length) ++
      gcmTag (keySchedule key) nonce (zipXor pt (keystream (keySchedule key) nonce pt.length)))).drop 12 =
      zipXor pt (keystream (keySchedule key) nonce pt.length) ++
      gcmTag (keySchedule key) nonce (zipXor pt (keystream (keySchedule key) nonce pt.length)) := by
    rw [← hn]
    exact List.drop_left _ _
  rw [ht12, hd12]
  have hrl : (zipXor pt (keystream (keySchedule key) nonce pt.length) ++
      gcmTag (keySchedule key) nonce (zipXor pt (keystream (keySchedule key) nonce pt.length))).length =
      pt.length + 16 := by
    rw [List.length_append, hctlen]
    unfold gcmTag
    rw [htaglen]
  rw [if_neg (by rw [hrl]; omega)]
  have htake : (zipXor pt (keystream (keySchedule key) nonce pt.length) ++
      gcmTag (keySchedule key) nonce (zipXor pt (keystream (keySchedule key) nonce pt.length))).take
        ((zipXor pt (keystream (keySchedule key) nonce pt.length) ++
          gcmTag (keySchedule key) nonce (zipXor pt (keystream (keySchedule key) nonce pt.length))).length - 16) =
      zipXor pt (keystream (keySchedule key) nonce pt.length) := by
    rw [hrl]
    have he : pt.length + 16 - 16 =
        (zipXor pt (keystream (keySchedule key) nonce pt.length)).length := by
      rw [hctlen]
      omega
    rw [he]
    exact List.take_left _ _
  have hdrop : (zipXor pt (keystream (keySchedule key) nonce pt.length) ++
      gcmTag (keySchedule key) nonce (zipXor pt (keystream (keySchedule key) nonce pt.length))).drop
        ((zipXor pt (keystream (keySchedule key) nonce pt.length) ++
          gcmTag (keySchedule key) nonce (zipXor pt (keystream (keySchedule key) nonce pt.length))).length - 16) =
      gcmTag (keySchedule key) nonce (zipXor pt (keystream (keySchedule key) nonce pt.length)) := by
    rw [hrl]
    have he : pt.length + 16 - 16 =
        (zipXor pt (keystream (keySchedule key) nonce pt.length)).length := by
      rw [hctlen]
      omega
    rw [he]
    exact List.drop_left _ _
  rw [htake, hdrop]
  rw [if_pos rfl]
  rw [hctlen]
  exact congrArg Except.ok (zipXor_cancel pt _ (by rw [hkslen]))

theorem char_toNat_lt (c : Char) : c.toNat < 1114112 := by
  have h := c.valid
  unfold UInt32.isValidChar Nat.isValidChar at h
  unfold Char.toNat
  rcases h with h | ⟨h1, h2⟩ <;> omega

theorem utf8Bytes_lt (c : Char) : ∀ b ∈ utf8Bytes c, b < 256 := by
  simp only [utf8Bytes]
  have hc := char_toNat_lt c
  by_cases h1 : c.toNat < 128
  · rw [if_pos h1]
    intro b hb
    rw [List.mem_singleton] at hb
    omega
  · rw [if_neg h1]
    by_cases h2 : c.toNat < 2048
    · rw [if_pos h2]
      intro b hb
      simp only [List.mem_cons, List.not_mem_nil, or_false] at hb
      rcases hb with h | h <;> omega
    · rw [if_neg h2]
      by_cases h3 : c.toNat < 65536
      · rw [if_pos h3]
        intro b hb
        simp only [List.mem_cons, List.not_mem_nil, or_false] at hb
        rcases hb with h | h | h <;> omega
      · rw [if_neg h3]
        intro b hb
        simp only [List.mem_cons, List.not_mem_nil, or_false] at hb
        rcases hb with h | h | h | h <;> omega

theorem deriveKey_lt (key : List Char) : ∀ b ∈ deriveKey key, b < 256 := by
  unfold deriveKey
  intro b hb
  have hb2 := List.mem_of_mem_take hb
  obtain ⟨l, hl, hbl⟩ := List.mem_flatten.mp hb2
  obtain ⟨c, _, hc⟩ := List.mem_map.mp hl
  rw [← hc] at hbl
  exact utf8Bytes_lt c b hbl

/-! ## Claim theorems for the encryption service -/

/-- C6 counterexample: the key strings "a" and "a0" are different, yet
`EncryptionService::new` derives the same 32 AES key bytes from both
(pad with `0` characters to 64, take 32 bytes), so decrypting with "a0"
what was encrypted with "a" succeeds and returns the plaintext instead of
failing. -/
theorem claim6_counterexample :
    ("a".toList ≠ "a0".toList) ∧
    deriveKey "a".toList = deriveKey "a0".toList ∧
    decryptService (deriveKey "a0".toList)
      (encryptService (deriveKey "a".toList) (List.replicate 12 0) [104, 105]) =
      Except.ok [104, 105] := by
  refine ⟨by decide, by decide, ?_⟩
  rw [show deriveKey "a".toList = deriveKey "a0".toList from by decide]
  exact encryption_roundtrip_core _ _ _ (deriveKey_lt _) (by decide) (by decide)
    (by decide)

/-- C6 amended: decrypting `encrypt(p, k₁)` with `k₂` returns `p`
whenever the two key strings derive the same AES-256 key — in particular
for `k₂ = k₁` (the round-trip), but also for distinct strings whose
zero-padded 64-character forms share their first 32 bytes, such as "a"
and "a0"; `k₁ ≠ k₂` alone therefore does not guarantee failure. -/
theorem claim6_theorem (p nonce : List Nat) (k1 k2 : List Char)
    (hd : deriveKey k1 = deriveKey k2) (hn : nonce.length = 12)
    (hnb : ∀ b ∈ nonce, b < 256) (hpb : ∀ b ∈ p, b < 256) :
    decryptService (deriveKey k2) (encryptService (deriveKey k1) nonce p) =
      Except.ok p := by
  rw [hd]
  exact encryption_roundtrip_core _ _ _ (deriveKey_lt k2) hn hnb hpb

/-- C6 witness: the amended statement at plaintext bytes "hi", an
all-zero nonce and the key strings "a" and "a0". -/
theorem claim6_witness :
    deriveKey "a".toList = deriveKey "a0".toList ∧
    (List.replicate 12 (0 : Nat)).length = 12 ∧
    decryptService (deriveKey "a0".toList)
      (encryptService (deriveKey "a".toList) (List.replicate 12 0) [104, 105]) =
      Except.ok [104, 105] :=
  ⟨by decide, by decide,
    claim6_theorem [104, 105] (List.replicate 12 0) "a".toList "a0".toList
      (by decide) (by decide) (by decide) (by decide)⟩

end RefMd
